import Mathlib

/-!
Verification of the reputation-net node against its specification.

The development shallowly embeds the Rust sources: the data model
(`src/model/*`), the persistence layer (`src/storage/mod.rs`), the gossip
broadcast handler (`src/reputation_net/mod.rs`), the synchronization
comparison (`src/reputation_net/sync.rs`, `src/storage/sync_info.rs`) and
the milter policy accumulator (`src/milter/policy.rs`).

Strings are embedded as `List Char`; machine integers (`u8/u16/u32/i64`)
as `Nat`/`Int` with explicit range conditions where the code checks them.
External crates (sqlite, libp2p crypto, cidr textual parsing, SHA-256,
base64) are modelled where noted; everything else is translated from the
source.
-/

namespace RepNet

/-- Strings of the embedded program, as lists of characters. -/
abbrev Str := List Char

/-- Shorthand to write embedded strings from Lean string literals. -/
def str (s : String) : Str := s.data

/-! ## Decimal and hexadecimal rendering of numbers (Rust `Display` for integers) -/

/-- Big-endian digit characters of `n` in base `b` (empty for zero); the
fuel argument makes the recursion structural, any `fuel ≥ n` is exact. -/
def digitsAux (b : Nat) : Nat → Nat → Str
  | _, 0 => []
  | 0, _ => []
  | fuel + 1, n + 1 =>
      digitsAux b fuel ((n + 1) / b) ++ [Nat.digitChar ((n + 1) % b)]

/-- Decimal rendering of a natural number, as Rust's integer `Display`. -/
def natDec (n : Nat) : Str :=
  if n = 0 then ['0'] else digitsAux 10 n n

/-- Numeric value of a decimal digit character. -/
def digitVal (c : Char) : Nat := c.toNat - '0'.toNat

/-- Value of a big-endian list of decimal digit characters
(Rust `str::parse` on a digit run). -/
def decVal (ds : Str) : Nat := ds.foldl (fun a c => 10 * a + digitVal c) 0

/-- Uppercase hexadecimal digit (for the `{:02X}` CIDR index format). -/
def hexDigitU (n : Nat) : Char :=
  if n < 10 then Char.ofNat ('0'.toNat + n) else Char.ofNat ('A'.toNat + n - 10)

/-- Two-digit uppercase hex of a byte, Rust `format!("{:02X}", b)`. -/
def hex2 (b : Nat) : Str := [hexDigitU (b / 16), hexDigitU (b % 16)]

/-- Lowercase hexadecimal rendering, as Rust `{:x}` (used by IPv6 groups). -/
def natHex (n : Nat) : Str :=
  if n = 0 then ['0'] else digitsAux 16 n n

/-! ## Base64 (models the external `base64` crate, standard alphabet) -/

/-- The standard base64 alphabet. -/
def b64Alphabet : Str :=
  str "ABCDEFGHIJKLMNOPQRSTUVWXYZabcdefghijklmnopqrstuvwxyz0123456789+/"

/-- Character for a sextet value. -/
def sextetChar (n : Nat) : Char := b64Alphabet.getD n 'A'

/-- Index of a character in the base64 alphabet. -/
def charSextet (c : Char) : Option Nat :=
  if c ∈ b64Alphabet then some (b64Alphabet.indexOf c) else none

/-- Modelled from the spec: `base64::encode` of the external base64 crate
(standard alphabet with `=` padding). -/
def base64Encode : List Nat → Str
  | [] => []
  | [b1] => [sextetChar (b1 / 4), sextetChar (b1 % 4 * 16), '=', '=']
  | [b1, b2] =>
      [sextetChar (b1 / 4), sextetChar (b1 % 4 * 16 + b2 / 16),
       sextetChar (b2 % 16 * 4), '=']
  | b1 :: b2 :: b3 :: rest =>
      sextetChar (b1 / 4) :: sextetChar (b1 % 4 * 16 + b2 / 16) ::
      sextetChar (b2 % 16 * 4 + b3 / 64) :: sextetChar (b3 % 64) ::
      base64Encode rest

/-- Modelled from the spec: `base64::decode` of the external base64 crate. -/
def base64Decode : Str → Option (List Nat)
  | [] => some []
  | a :: b :: c :: d :: rest =>
      match charSextet a, charSextet b with
      | some s1, some s2 =>
        if c = '=' then
          if d = '=' ∧ rest = [] then some [s1 * 4 + s2 / 16] else none
        else
          match charSextet c with
          | some s3 =>
            if d = '=' then
              if rest = [] then some [s1 * 4 + s2 / 16, s2 % 16 * 16 + s3 / 4]
              else none
            else
              match charSextet d with
              | some s4 =>
                (base64Decode rest).map
                  (fun bs => (s1 * 4 + s2 / 16) :: (s2 % 16 * 16 + s3 / 4) ::
                             (s3 % 4 * 64 + s4) :: bs)
              | none => none
          | none => none
      | _, _ => none
  | _ => none

/-! ## CIDR values (model of the external `cidr` crate values) -/

/-- An IPv4 CIDR: network address (32-bit value) and network length.
Values produced by the crate's parser satisfy `Ipv4Cidr.wf`. -/
structure Ipv4Cidr where
  addr : Nat
  len : Nat
deriving DecidableEq

/-- Well-formedness of an `Ipv4Cidr` as guaranteed by the `cidr` crate:
32-bit address, length at most 32, host bits zero. -/
def Ipv4Cidr.wf (c : Ipv4Cidr) : Prop :=
  c.addr < 2 ^ 32 ∧ c.len ≤ 32 ∧ c.addr % 2 ^ (32 - c.len) = 0

instance (c : Ipv4Cidr) : Decidable c.wf := by unfold Ipv4Cidr.wf; infer_instance

/-- The four octets of a 32-bit address, most significant first. -/
def octets (a : Nat) : List Nat :=
  [a / 2 ^ 24 % 256, a / 2 ^ 16 % 256, a / 2 ^ 8 % 256, a % 256]

/-- Dotted-quad decimal rendering of a 32-bit address. -/
def dottedQuad (a : Nat) : Str :=
  (List.intercalate ['.'] ((octets a).map natDec))

/-- Modelled from the spec: `Display` of `cidr::Ipv4Cidr` — the bare
address for a host (`len = 32`), `address/len` otherwise. -/
def Ipv4Cidr.render (c : Ipv4Cidr) : Str :=
  if c.len = 32 then dottedQuad c.addr
  else dottedQuad c.addr ++ '/' :: natDec c.len

/-- First address of the range (the network address itself). -/
def Ipv4Cidr.firstAddress (c : Ipv4Cidr) : Nat := c.addr

/-- Last address of the range (host bits all ones). -/
def Ipv4Cidr.lastAddress (c : Ipv4Cidr) : Nat := c.addr + (2 ^ (32 - c.len) - 1)

/-- An IPv6 CIDR: network address (128-bit value) and network length. -/
structure Ipv6Cidr where
  addr : Nat
  len : Nat
deriving DecidableEq

/-- The eight 16-bit groups of a 128-bit address, most significant first. -/
def groups16 (a : Nat) : List Nat :=
  [a / 2 ^ 112 % 65536, a / 2 ^ 96 % 65536, a / 2 ^ 80 % 65536,
   a / 2 ^ 64 % 65536, a / 2 ^ 48 % 65536, a / 2 ^ 32 % 65536,
   a / 2 ^ 16 % 65536, a % 65536]

/-- Length of the run of zeros in `gs` starting at the front. -/
def zeroRunLen : List Nat → Nat
  | 0 :: rest => 1 + zeroRunLen rest
  | _ => 0

/-- Start index and length of the leftmost longest run of zero groups. -/
def bestZeroRun (gs : List Nat) : Nat × Nat :=
  let runs := (List.range gs.length).map (fun i => (i, zeroRunLen (gs.drop i)))
  runs.foldl (fun best r => if r.2 > best.2 then r else best) (0, 0)

/-- Modelled from the spec: `Display` of `cidr::Ipv6Cidr` via Rust's
`Ipv6Addr` formatting — lowercase hex groups with the leftmost longest
run of at least two zero groups compressed to `::` (the IPv4-mapped
special form is not modelled; no theorem below evaluates it). -/
def ipv6Groups (gs : List Nat) : Str :=
  let plain := List.intercalate [':'] (gs.map natHex)
  let (start, len) := bestZeroRun gs
  if len ≥ 2 then
    List.intercalate [':'] ((gs.take start).map natHex) ++ [':', ':'] ++
    List.intercalate [':'] ((gs.drop (start + len)).map natHex)
  else plain

/-- Rendering of an `Ipv6Cidr`: bare address for a host, `address/len`
otherwise. -/
def Ipv6Cidr.render (c : Ipv6Cidr) : Str :=
  if c.len = 128 then ipv6Groups (groups16 c.addr)
  else ipv6Groups (groups16 c.addr) ++ '/' :: natDec c.len

/-! ## EntityType, PublicKey, Template (src/model) -/

/-- `EntityType` from `src/model/entity.rs`. -/
inductive EntityType
  | Template
  | Signer
  | Domain
  | EMail
  | HashValue
  | AS
  | IPv4
  | IPv6
  | Url
deriving DecidableEq

/-- `Display for EntityType`. -/
def EntityType.render : EntityType → Str
  | .Domain => str "Domain"
  | .EMail => str "EMail"
  | .AS => str "AS"
  | .IPv4 => str "IPv4"
  | .IPv6 => str "IPv6"
  | .Signer => str "Signer"
  | .Url => str "Url"
  | .HashValue => str "HashValue"
  | .Template => str "Template"

/-- `PublicKey` from `src/model/publickey.rs`; the wrapped
`libp2p::core::PublicKey` variants carry their encoded bytes. -/
inductive PublicKey
  | Ed25519 (bytes : List Nat)
  | Secp256k1 (bytes : List Nat)
  | Rsa (bytes : List Nat)
deriving DecidableEq

/-- `Display for PublicKey`: algorithm tag, a colon, base64 of the
encoded key bytes. -/
def PublicKey.render : PublicKey → Str
  | .Ed25519 bs => str "ed25519:" ++ base64Encode bs
  | .Secp256k1 bs => str "secp256k1:" ++ base64Encode bs
  | .Rsa bs => str "rsa:" ++ base64Encode bs

/-- Modelled from the spec: validity of compressed secp256k1 public key
bytes as checked by `libp2p::identity::secp256k1::PublicKey::decode`
(SEC1 compressed form: 33 bytes, leading byte 2 or 3, bytes below 256). -/
def validSecp256k1 (bs : List Nat) : Bool :=
  bs.length = 33 && (bs.headD 0 = 2 || bs.headD 0 = 3) && bs.all (· < 256)

/-- Modelled from the spec: validity of ed25519 public key bytes
(32 bytes). -/
def validEd25519 (bs : List Nat) : Bool :=
  bs.length = 32 && bs.all (· < 256)

/-- `FromStr for PublicKey`: split at `:`, base64-decode the second part,
decode with the named algorithm. -/
def publicKeyFromStr (s : Str) : Option PublicKey :=
  let parts := s.splitOn ':'
  match parts with
  | alg :: b64 :: _ =>
    match base64Decode b64 with
    | some bytes =>
      if alg = str "ed25519" then
        if validEd25519 bytes then some (.Ed25519 bytes) else none
      else if alg = str "secp256k1" then
        if validSecp256k1 bytes then some (.Secp256k1 bytes) else none
      else if alg = str "rsa" then
        if bytes.all (· < 256) then some (.Rsa bytes) else none
      else none
    | none => none
  | _ => none

/-- `Template` from `src/model/template.rs`: a name and one list of
admissible entity types per positional slot. -/
structure Template where
  name : Str
  entity_types : List (List EntityType)
deriving DecidableEq

/-- `Display for Template`: `name(T|T,T,…)`. -/
def Template.render (t : Template) : Str :=
  t.name ++ '(' ::
    List.intercalate [','] (t.entity_types.map
      (fun alts => List.intercalate ['|'] (alts.map EntityType.render))) ++ [')']

/-! ## Entity (src/model/entity.rs) -/

/-- `Entity` from `src/model/entity.rs`. -/
inductive Entity
  | Domain (s : Str)
  | EMail (s : Str)
  | AS (n : Nat)
  | IPv4 (c : Ipv4Cidr)
  | IPv6 (c : Ipv6Cidr)
  | Signer (pk : PublicKey)
  | Url (s : Str)
  | HashValue (s : Str)
  | Template (t : Template)
deriving DecidableEq

/-- `Entity::entity_type`. -/
def Entity.entity_type : Entity → EntityType
  | .Domain _ => .Domain
  | .EMail _ => .EMail
  | .AS _ => .AS
  | .IPv4 _ => .IPv4
  | .IPv6 _ => .IPv6
  | .Signer _ => .Signer
  | .Url _ => .Url
  | .HashValue _ => .HashValue
  | .Template _ => .Template

/-- `Display for Entity`. -/
def Entity.render : Entity → Str
  | .Domain s => s
  | .EMail s => s
  | .AS n => 'A' :: 'S' :: natDec n
  | .IPv4 c => c.render
  | .IPv6 c => c.render
  | .Signer pk => pk.render
  | .Url s => s
  | .HashValue s => '#' :: s
  | .Template t => t.render

/-- Modelled from the spec: SHA-256 (external crate); an executable
stand-in is used — no theorem depends on the digest values, only on the
fact that `hash_string` produces a base64 `HashValue`. -/
def sha256Model (s : Str) : List Nat :=
  (s.map (fun c => c.toNat % 256)).take 32 ++ List.replicate (32 - min 32 s.length) 0

/-- `Entity::hash_string`: base64 of the SHA-256 of the input. -/
def Entity.hash_string (s : Str) : Entity :=
  .HashValue (base64Encode (sha256Model s))

/-- `Entity::hash_emails`. -/
def Entity.hash_emails : Entity → Entity
  | .EMail s => Entity.hash_string s
  | e => e

/-- `Entity::cidr_minmax`: fixed-width hex bounds for IPv4 entities,
`(None, None)` otherwise. -/
def Entity.cidr_minmax : Entity → Option Str × Option Str
  | .IPv4 c =>
      (some ((octets c.firstAddress).flatMap hex2),
       some ((octets (c.lastAddress)).flatMap hex2))
  | _ => (none, none)

/-! ## Statement (src/model/statement.rs) -/

/-- `Statement` from `src/model/statement.rs`. -/
structure Statement where
  name : Str
  entities : List Entity
deriving DecidableEq

/-- `Statement::signer`. -/
def Statement.signer (e : Entity) : Statement := ⟨str "signer", [e]⟩

/-- `Statement::matches_template` (note: the source iterates over the
`zip` of entities and slots and never compares the lengths). -/
def Statement.matches_template (s : Statement) (t : Template) : Bool :=
  s.name == t.name &&
    (s.entities.zip t.entity_types).all
      (fun p => p.2.contains p.1.entity_type)

/-- `Display for Statement`: `name(e1,e2,…)`. -/
def Statement.render (s : Statement) : Str :=
  s.name ++ '(' :: List.intercalate [','] (s.entities.map Entity.render) ++ [')']

/-- `Statement::signable_bytes` (the rendered text, kept as characters). -/
def Statement.signable_bytes (s : Statement) : Str := s.render

/-- `Statement::hash_emails`. -/
def Statement.hash_emails (s : Statement) : Statement :=
  ⟨s.name, s.entities.map Entity.hash_emails⟩

/-! ## The nom parser (src/model/parser.rs)

Recognizer-style helpers return `(consumed, rest)`; entity alternatives
return `(rest, value)` like nom's `IResult`. -/

/-- nom `tag`: returns the rest after the literal, or fails. -/
def tagP : Str → Str → Option Str
  | [], s => some s
  | _, [] => none
  | t :: ts, c :: cs => if c = t then tagP ts cs else none

/-- nom `take_while1`-flavoured helper: the maximal run satisfying `p`
(failing when empty) and the rest. -/
def takeWhile1 (p : Char → Bool) (s : Str) : Option (Str × Str) :=
  if (s.takeWhile p).isEmpty then none else some (s.takeWhile p, s.dropWhile p)

/-- Character class of nom `alpha1` (ASCII letters). -/
def isAlphaC (c : Char) : Bool := c.isAlpha

/-- Character class of nom `alphanumeric1` (ASCII letters and digits). -/
def isAlnumC (c : Char) : Bool := c.isAlphanum

/-- Character class of nom `digit1`. -/
def isDigitC (c : Char) : Bool := c.isDigit

/-- Tail characters of `name`: `many0(alt((alpha1, tag("_"))))` consumes
exactly the maximal run of letters and underscores. -/
def nameTail (c : Char) : Bool := c.isAlpha || c = '_'

/-- Characters a domain label may continue with. -/
def labelRun (c : Char) : Bool := c.isAlphanum || c = '-'

/-- The symbol set of the `localpart` rule: dot, bang, hash, dollar,
percent, ampersand, apostrophe, star, plus, hyphen, slash, equals,
question mark, caret, underscore, backtick, open brace, pipe, close
brace, tilde (the risky ones written by code point). -/
def localpartSym : Str :=
  ['.', '!', '#', '$', '%', '&', Char.ofNat 39, '*', '+', '-', '/', '=',
   '?', '^', '_', Char.ofNat 96, Char.ofNat 123, '|', Char.ofNat 125,
   Char.ofNat 126]

/-- A character admissible in `localpart`. -/
def localpartChar (c : Char) : Bool := c.isAlphanum || localpartSym.contains c

/-- A character of the `base64` token: alphanumeric or `./+`. -/
def b64Char (c : Char) : Bool := c.isAlphanum || c = '.' || c = '/' || c = '+'

/-- The symbol set of url path segments: `is_a("-_.%+")`. -/
def urlSym (c : Char) : Bool := c = '-' || c = '_' || c = '.' || c = '%' || c = '+'

/-- Hex characters of the `ipv6` recognizer. -/
def isHexC (c : Char) : Bool :=
  c.isDigit || ('A' ≤ c && c ≤ 'F') || ('a' ≤ c && c ≤ 'f')

/-- Hex characters or colon. -/
def hexColon (c : Char) : Bool := isHexC c || c = ':'

/-- `name`: `alpha1` then letters/underscores. -/
def nameP (s : Str) : Option (Str × Str) :=
  match takeWhile1 isAlphaC s with
  | some (a, r) => some (a ++ r.takeWhile nameTail, r.dropWhile nameTail)
  | none => none

/-- `label`: `alphanumeric1, many0(alt((alphanumeric1, tag("-")))),
opt(alphanumeric1)` — equivalently an alphanumeric first character
followed by the maximal run of alphanumerics and hyphens. -/
def labelP (s : Str) : Option (Str × Str) :=
  match s with
  | [] => none
  | c :: _ =>
      if c.isAlphanum then some (s.takeWhile labelRun, s.dropWhile labelRun)
      else none

theorem labelP_sound {s con rest : Str} (h : labelP s = some (con, rest)) :
    s = con ++ rest ∧ con ≠ [] := by
  match s with
  | [] => simp [labelP] at h
  | c :: cs =>
    by_cases hc : c.isAlphanum
    · simp only [labelP, hc, if_true, Option.some.injEq, Prod.mk.injEq] at h
      obtain ⟨h1, h2⟩ := h
      subst h1; subst h2
      refine ⟨(List.takeWhile_append_dropWhile ..).symm, ?_⟩
      simp [List.takeWhile, labelRun, hc]
    · simp [labelP, hc] at h

/-- Fuel-driven loop of `many0(tuple((label, tag(".")) ))`; the fuel
argument only makes the recursion structural, `manyLabelDot` below
supplies enough of it for the loop semantics to be exact
(`manyLabelDot_eq`). -/
def manyLabelDotF : Nat → Str → Str × Str
  | 0, s => ([], s)
  | fuel + 1, s =>
    match labelP s with
    | some (con, rest) =>
      match rest with
      | c :: rest2 =>
        if c = '.' then
          let p := manyLabelDotF fuel rest2
          (con ++ '.' :: p.1, p.2)
        else ([], s)
      | [] => ([], s)
    | none => ([], s)

/-- `many0(tuple((label, tag(".")) ))` of the `domain` parser; returns
`(consumed, rest)`. -/
def manyLabelDot (s : Str) : Str × Str := manyLabelDotF s.length s

theorem labelP_rest_len {s con rest : Str} (h : labelP s = some (con, rest)) :
    rest.length + 1 ≤ s.length := by
  obtain ⟨hs, hcon⟩ := labelP_sound h
  subst hs
  cases con with
  | nil => exact absurd rfl hcon
  | cons a l => simp only [List.length_append, List.length_cons]; omega

theorem manyLabelDotF_fuel {f1 f2 : Nat} {s : Str}
    (h1 : s.length ≤ f1) (h2 : s.length ≤ f2) :
    manyLabelDotF f1 s = manyLabelDotF f2 s := by
  induction f1 generalizing f2 s with
  | zero =>
    have hs : s = [] := List.length_eq_zero.mp (Nat.le_zero.mp h1)
    subst hs
    cases f2 with
    | zero => rfl
    | succ f => simp [manyLabelDotF, labelP]
  | succ f1 ih =>
    cases f2 with
    | zero =>
      have hs : s = [] := List.length_eq_zero.mp (Nat.le_zero.mp h2)
      subst hs
      simp [manyLabelDotF, labelP]
    | succ f2 =>
      simp only [manyLabelDotF]
      cases hl : labelP s with
      | none => rfl
      | some p =>
        obtain ⟨con, rest⟩ := p
        cases rest with
        | nil => rfl
        | cons c rest2 =>
          by_cases hc : c = '.'
          · subst hc
            simp only [if_true]
            have hlen := labelP_rest_len hl
            simp only [List.length_cons] at hlen
            rw [@ih f2 rest2 (by omega) (by omega)]
          · simp [hc]

/-- The loop equation of `manyLabelDot`, as the nom combinator computes it. -/
theorem manyLabelDot_eq (s : Str) :
    manyLabelDot s =
      match labelP s with
      | some (con, rest) =>
        match rest with
        | c :: rest2 =>
          if c = '.' then
            (con ++ '.' :: (manyLabelDot rest2).1, (manyLabelDot rest2).2)
          else ([], s)
        | [] => ([], s)
      | none => ([], s) := by
  unfold manyLabelDot
  cases hn : s.length with
  | zero =>
    have hs : s = [] := List.length_eq_zero.mp hn
    subst hs
    simp [manyLabelDotF, labelP]
  | succ n =>
    simp only [manyLabelDotF]
    cases hl : labelP s with
    | none => rfl
    | some p =>
      obtain ⟨con, rest⟩ := p
      cases rest with
      | nil => rfl
      | cons c rest2 =>
        by_cases hc : c = '.'
        · subst hc
          simp only [if_true]
          have hlen := labelP_rest_len hl
          simp only [List.length_cons] at hlen
          have hf := @manyLabelDotF_fuel n rest2.length rest2 (by omega)
            (Nat.le_refl _)
          rw [hf]
        · simp [hc]

/-- `domain`: labels-with-dots then `alpha1`; `(consumed, rest)`. -/
def domainP (s : Str) : Option (Str × Str) :=
  match manyLabelDot s with
  | (con, r) =>
    match takeWhile1 isAlphaC r with
    | some (al, r2) => some (con ++ al, r2)
    | none => none

/-- `email`: `localpart`, `@`, `domain`; `(consumed, rest)`. -/
def emailP (s : Str) : Option (Str × Str) :=
  match takeWhile1 localpartChar s with
  | some (lp, r) =>
    match r with
    | '@' :: r2 =>
      match domainP r2 with
      | some (d, r3) => some (lp ++ '@' :: d, r3)
      | none => none
    | _ => none
  | none => none

/-- `base64` token: a run of base64 characters then a run of `=`. -/
def base64TokenP (s : Str) : Option (Str × Str) :=
  match takeWhile1 b64Char s with
  | some (tk, r) => some (tk ++ r.takeWhile (· = '='), r.dropWhile (· = '='))
  | none => none

/-- `hash_value`: `#`, then a hashed e-mail or a base64 token. -/
def hashValueP (s : Str) : Option (Str × Entity) :=
  match s with
  | '#' :: r =>
    match emailP r with
    | some (em, r2) => some (r2, Entity.hash_string em)
    | none =>
      match base64TokenP r with
      | some (tk, r2) => some (r2, .HashValue tk)
      | none => none
  | _ => none

/-- `asn`: `AS` then digits, value parsed as `u32`. -/
def asnP (s : Str) : Option (Str × Entity) :=
  match s with
  | 'A' :: 'S' :: r =>
    match takeWhile1 isDigitC r with
    | some (ds, r2) =>
        if decVal ds < 2 ^ 32 then some (r2, .AS (decVal ds)) else none
    | none => none
  | _ => none

/-- The entity type tags, in the order `entity_type` tries them. -/
def entityTypeTags : List (Str × EntityType) :=
  [(str "Domain", .Domain), (str "EMail", .EMail), (str "AS", .AS),
   (str "IPv4", .IPv4), (str "IPv6", .IPv6), (str "Signer", .Signer),
   (str "Url", .Url), (str "HashValue", .HashValue),
   (str "Template", .Template)]

/-- Try each tag in order, as `entity_type` does. -/
def tryTags : List (Str × EntityType) → Str → Option (Str × EntityType)
  | [], _ => none
  | (t, ty) :: rest, s =>
    match tagP t s with
    | some r => some (r, ty)
    | none => tryTags rest s

/-- `entity_type` of the parser. -/
def entityTypeP (s : Str) : Option (Str × EntityType) := tryTags entityTypeTags s

theorem tagP_length {t s r : Str} (h : tagP t s = some r) :
    r.length + t.length = s.length := by
  induction t generalizing s with
  | nil => simp only [tagP, Option.some.injEq] at h; simp [← h]
  | cons a ts ih =>
    match s with
    | [] => simp [tagP] at h
    | c :: cs =>
      simp only [tagP] at h
      split at h
      · have := ih h; simp only [List.length_cons]; omega
      · exact absurd h (by simp)

theorem tryTags_length {ts : List (Str × EntityType)} {s r : Str}
    {ty : EntityType} (hne : ∀ p ∈ ts, p.1 ≠ ([] : Str))
    (h : tryTags ts s = some (r, ty)) : r.length < s.length := by
  induction ts with
  | nil => simp [tryTags] at h
  | cons p rest ih =>
    obtain ⟨t, ty0⟩ := p
    simp only [tryTags] at h
    match htag : tagP t s with
    | some r0 =>
      rw [htag] at h
      obtain ⟨h1, _⟩ := Option.some.inj h |> Prod.mk.inj
      subst h1
      have hlen := tagP_length htag
      have ht : t ≠ [] := hne (t, ty0) (by simp)
      have : t.length ≥ 1 := by
        cases t with
        | nil => exact absurd rfl ht
        | cons a l => simp
      omega
    | none =>
      rw [htag] at h
      exact ih (fun q hq => hne q (by simp [hq])) h

theorem entityTypeP_length {s r : Str} {ty : EntityType}
    (h : entityTypeP s = some (r, ty)) : r.length < s.length :=
  tryTags_length (by decide) h

/-- Fuel-driven loop of nom `separated_list1`: the element parser `E`,
then repeatedly the separator and another element; a failed
separator-element attempt is backtracked, as in nom. The fuel argument
only makes the recursion structural; `sepList` supplies enough of it. -/
def sepListF {α : Type} (E : Str → Option (Str × α)) (sep : Char) :
    Nat → Str → Option (Str × List α)
  | 0, _ => none
  | fuel + 1, s =>
    match E s with
    | none => none
    | some (r, x) =>
      match r with
      | c :: r2 =>
        if c = sep then
          match sepListF E sep fuel r2 with
          | some (r3, xs) => some (r3, x :: xs)
          | none => some (r, [x])
        else some (r, [x])
      | [] => some (r, [x])

/-- nom `separated_list1(char(sep), E)`. -/
def sepList {α : Type} (E : Str → Option (Str × α)) (sep : Char) (s : Str) :
    Option (Str × List α) :=
  sepListF E sep s.length s

/-- Consumption hypothesis on an element parser: it always consumes at
least one character. -/
def Consuming {α : Type} (E : Str → Option (Str × α)) : Prop :=
  ∀ {s r : Str} {x : α}, E s = some (r, x) → r.length < s.length

theorem Consuming.nilNone {α : Type} {E : Str → Option (Str × α)}
    (hE : Consuming E) : E [] = none := by
  cases h : E [] with
  | none => rfl
  | some p =>
    obtain ⟨r, x⟩ := p
    exact absurd (hE h) (by simp)

theorem sepListF_fuel {α : Type} {E : Str → Option (Str × α)} {sep : Char}
    (hE : Consuming E) {f1 f2 : Nat} {s : Str}
    (h1 : s.length ≤ f1) (h2 : s.length ≤ f2) :
    sepListF E sep f1 s = sepListF E sep f2 s := by
  induction f1 generalizing f2 s with
  | zero =>
    have hs : s = [] := List.length_eq_zero.mp (Nat.le_zero.mp h1)
    subst hs
    cases f2 with
    | zero => rfl
    | succ f => simp [sepListF, hE.nilNone]
  | succ f1 ih =>
    cases f2 with
    | zero =>
      have hs : s = [] := List.length_eq_zero.mp (Nat.le_zero.mp h2)
      subst hs
      simp [sepListF, hE.nilNone]
    | succ f2 =>
      simp only [sepListF]
      cases he : E s with
      | none => rfl
      | some p =>
        obtain ⟨r, x⟩ := p
        have hr := hE he
        cases r with
        | nil => rfl
        | cons c r2 =>
          by_cases hc : c = sep
          · subst hc
            simp only [if_true]
            simp only [List.length_cons] at hr
            rw [@ih f2 r2 (by omega) (by omega)]
          · simp [hc]

theorem sepListF_length {α : Type} {E : Str → Option (Str × α)} {sep : Char}
    (hE : Consuming E) :
    ∀ {fuel : Nat} {s r : Str} {xs : List α},
      sepListF E sep fuel s = some (r, xs) → r.length < s.length := by
  intro fuel
  induction fuel with
  | zero => intro s r xs h; simp [sepListF] at h
  | succ f ih =>
    intro s r xs h
    simp only [sepListF] at h
    cases he : E s with
    | none => rw [he] at h; exact absurd h (by simp)
    | some p =>
      obtain ⟨r0, x⟩ := p
      rw [he] at h
      have hr0 := hE he
      cases r0 with
      | nil =>
        obtain ⟨h3, _⟩ := Option.some.inj h |> Prod.mk.inj
        subst h3; exact hr0
      | cons c r2 =>
        by_cases hc : c = sep
        · simp only [hc, if_true] at h
          cases hrec : sepListF E sep f r2 with
          | none =>
            rw [hrec] at h
            obtain ⟨h3, _⟩ := Option.some.inj h |> Prod.mk.inj
            subst h3; exact hr0
          | some q =>
            obtain ⟨r3, xs3⟩ := q
            rw [hrec] at h
            obtain ⟨h3, _⟩ := Option.some.inj h |> Prod.mk.inj
            subst h3
            have := ih hrec
            simp only [List.length_cons] at hr0
            omega
        · simp only [hc, if_false] at h
          obtain ⟨h3, _⟩ := Option.some.inj h |> Prod.mk.inj
          subst h3; exact hr0

theorem sepList_length {α : Type} {E : Str → Option (Str × α)} {sep : Char}
    (hE : Consuming E) : Consuming (sepList E sep) :=
  fun h => sepListF_length hE h

/-- The loop equation of `sepList`, as nom `separated_list1` computes it. -/
theorem sepList_eq {α : Type} {E : Str → Option (Str × α)} {sep : Char}
    (hE : Consuming E) (s : Str) :
    sepList E sep s =
      match E s with
      | none => none
      | some (r, x) =>
        match r with
        | c :: r2 =>
          if c = sep then
            match sepList E sep r2 with
            | some (r3, xs) => some (r3, x :: xs)
            | none => some (r, [x])
          else some (r, [x])
        | [] => some (r, [x]) := by
  unfold sepList
  cases hn : s.length with
  | zero =>
    have hs : s = [] := List.length_eq_zero.mp hn
    subst hs
    simp [sepListF, hE.nilNone]
  | succ n =>
    simp only [sepListF]
    cases he : E s with
    | none => rfl
    | some p =>
      obtain ⟨r, x⟩ := p
      have hr := hE he
      cases r with
      | nil => rfl
      | cons c r2 =>
        by_cases hc : c = sep
        · subst hc
          simp only [if_true]
          have hf := @sepListF_fuel _ E c hE n r2.length r2
            (by simp at hr; omega) (Nat.le_refl _)
          rw [hf]
        · simp [hc]

/-- `entity_type_alternatives`: `separated_list1(char('|'), entity_type)`. -/
def entityAltsP (s : Str) : Option (Str × List EntityType) :=
  sepList entityTypeP '|' s

theorem entityTypeP_consuming : Consuming entityTypeP :=
  fun h => entityTypeP_length h

theorem entityAltsP_length {s r : Str} {tys : List EntityType}
    (h : entityAltsP s = some (r, tys)) : r.length < s.length :=
  sepList_length entityTypeP_consuming h

/-- `entity_types`: `separated_list1(char(','), entity_type_alternatives)`. -/
def entityTypesP (s : Str) : Option (Str × List (List EntityType)) :=
  sepList entityAltsP ',' s

theorem entityAltsP_consuming : Consuming entityAltsP :=
  fun h => entityAltsP_length h

/-- `template`: `name`, `(`, entity types, `)`. -/
def templateP (s : Str) : Option (Str × Entity) :=
  match nameP s with
  | some (nm, '(' :: r2) =>
    match entityTypesP r2 with
    | some (')' :: r4, tss) => some (r4, .Template ⟨nm, tss⟩)
    | _ => none
  | _ => none

/-- `signer`: the tag `secp256k1:` and a base64 token, handed to
`PublicKey::from_str`. The source unwraps that result with
`expect("public key")`, i.e. panics on undecodable key bytes; the panic
path is modelled as parse failure (no theorem evaluates it). -/
def signerP (s : Str) : Option (Str × Entity) :=
  match tagP (str "secp256k1:") s with
  | some r =>
    match base64TokenP r with
    | some (tk, r2) =>
      match publicKeyFromStr (str "secp256k1:" ++ tk) with
      | some pk => some (r2, .Signer pk)
      | none => none
    | none => none
  | none => none

theorem takeWhile1_sound {p : Char → Bool} {s tk rest : Str}
    (h : takeWhile1 p s = some (tk, rest)) :
    s = tk ++ rest ∧ tk ≠ [] := by
  unfold takeWhile1 at h
  split at h
  · exact absurd h (by simp)
  · next hne =>
    obtain ⟨h1, h2⟩ := Option.some.inj h |> Prod.mk.inj
    subst h1; subst h2
    exact ⟨(List.takeWhile_append_dropWhile ..).symm, by simpa using hne⟩

theorem takeWhile1_rest_lt {p : Char → Bool} {s tk rest : Str}
    (h : takeWhile1 p s = some (tk, rest)) : rest.length < s.length := by
  obtain ⟨h1, h2⟩ := takeWhile1_sound h
  subst h1
  cases tk with
  | nil => exact absurd rfl h2
  | cons a l => simp; omega

/-- Fuel-driven loop of
`many0(tuple((tag("/"), alt((alphanumeric1, is_a("-_.%+"))))))` of the
`url` parser; each iteration takes a slash and one homogeneous run. -/
def urlSegsF : Nat → Str → Str × Str
  | 0, s => ([], s)
  | fuel + 1, s =>
    match s with
    | '/' :: r =>
      match takeWhile1 isAlnumC r with
      | some (seg, r2) =>
          let p := urlSegsF fuel r2
          ('/' :: (seg ++ p.1), p.2)
      | none =>
        match takeWhile1 urlSym r with
        | some (seg, r2) =>
            let p := urlSegsF fuel r2
            ('/' :: (seg ++ p.1), p.2)
        | none => ([], s)
    | _ => ([], s)

/-- The url path-segment loop (no theorem below reasons about it
symbolically; the fuel is always sufficient since every iteration
consumes at least two characters). -/
def urlSegs (s : Str) : Str × Str := urlSegsF s.length s

/-- Completion of the `url` parser after the scheme tag matched. -/
def urlAfterScheme (scheme : Str) (r : Str) : Option (Str × Entity) :=
  match tagP (str "://") r with
  | some r1 =>
    match domainP r1 with
    | some (d, r2) =>
      let (port, r3) :=
        match r2 with
        | ':' :: r2b =>
          match takeWhile1 isDigitC r2b with
          | some (ds, r2c) => (':' :: ds, r2c)
          | none => (([] : Str), r2)
        | _ => (([] : Str), r2)
      let (segs, r4) := urlSegs r3
      some (r4, .Url (scheme ++ str "://" ++ d ++ port ++ segs))
    | none => none
  | none => none

/-- `url`: `https` or `http`, `://`, domain, optional port, path
segments; produces `Entity::Url` of the recognized text. -/
def urlP (s : Str) : Option (Str × Entity) :=
  match tagP (str "https") s with
  | some r => urlAfterScheme (str "https") r
  | none =>
    match tagP (str "http") s with
    | some r => urlAfterScheme (str "http") r
    | none => none

/-- Modelled from the spec: octet validity of Rust's
`Ipv4Addr::from_str` — value below 256 and no leading zero. -/
def okOctet (ds : Str) : Bool :=
  decVal ds < 256 && !(ds.length > 1 && ds.headD '0' = '0')

/-- Modelled from the spec: interpretation of the recognized IPv4 text by
`cidr::Ipv4Cidr::from_str` — octets as for `Ipv4Addr`, an optional
network length parsed as `u8`, at most 32, host bits required zero; a
missing length means a host (length 32). -/
def ipv4FromParts (d1 d2 d3 d4 : Str) (dlen : Option Str) : Option Ipv4Cidr :=
  if okOctet d1 && okOctet d2 && okOctet d3 && okOctet d4 then
    let addr := ((decVal d1 * 256 + decVal d2) * 256 + decVal d3) * 256 + decVal d4
    match dlen with
    | none => some ⟨addr, 32⟩
    | some ds =>
      if decVal ds < 256 && decVal ds ≤ 32 && addr % 2 ^ (32 - decVal ds) = 0
      then some ⟨addr, decVal ds⟩ else none
  else none

/-- Completion of the `ipv4` parser after the four digit runs: the
optional `/len`, then the `cidr` crate interpretation. -/
def ipv4Tail (d1 d2 d3 d4 : Str) (r4 : Str) : Option (Str × Entity) :=
  match r4 with
  | '/' :: r4b =>
    match takeWhile1 isDigitC r4b with
    | some (dl, r5) =>
      match ipv4FromParts d1 d2 d3 d4 (some dl) with
      | some c => some (r5, .IPv4 c)
      | none => none
    | none =>
      match ipv4FromParts d1 d2 d3 d4 none with
      | some c => some (r4, .IPv4 c)
      | none => none
  | _ =>
    match ipv4FromParts d1 d2 d3 d4 none with
    | some c => some (r4, .IPv4 c)
    | none => none

/-- The fourth digit run of the `ipv4` parser. -/
def ipv4L4 (d1 d2 d3 : Str) (r3 : Str) : Option (Str × Entity) :=
  match takeWhile1 isDigitC r3 with
  | some (d4, r4) => ipv4Tail d1 d2 d3 d4 r4
  | none => none

/-- The third digit run and dot of the `ipv4` parser. -/
def ipv4L3 (d1 d2 : Str) (r2 : Str) : Option (Str × Entity) :=
  match takeWhile1 isDigitC r2 with
  | some (d3, '.' :: r3) => ipv4L4 d1 d2 d3 r3
  | _ => none

/-- The second digit run and dot of the `ipv4` parser. -/
def ipv4L2 (d1 : Str) (r1 : Str) : Option (Str × Entity) :=
  match takeWhile1 isDigitC r1 with
  | some (d2, '.' :: r2) => ipv4L3 d1 d2 r2
  | _ => none

/-- `ipv4`: four digit runs separated by dots, an optional `/len`,
interpreted by the `cidr` crate (the nom tuple is staged into the
helpers above). -/
def ipv4P (s : Str) : Option (Str × Entity) :=
  match takeWhile1 isDigitC s with
  | some (d1, '.' :: r1) => ipv4L2 d1 r1
  | _ => none

/-- Value of a big-endian run of hex digit characters. -/
def hexVal (ds : Str) : Nat :=
  ds.foldl (fun a c =>
    16 * a + (if c.isDigit then c.toNat - '0'.toNat
              else if 'a' ≤ c then c.toNat - 'a'.toNat + 10
              else c.toNat - 'A'.toNat + 10)) 0

/-- Modelled from the spec: one 16-bit group of `Ipv6Addr::from_str`. -/
def hexGroup (g : Str) : Option Nat :=
  if g ≠ [] ∧ g.length ≤ 4 ∧ g.all isHexC then some (hexVal g) else none

/-- Modelled from the spec: the address part of `Ipv6Addr::from_str` on
colon-and-hex text (the dotted IPv4 suffix form cannot reach this point
because the recognizer consumes no dots). -/
def ipv6FromText (text : Str) : Option Nat :=
  let parts := text.splitOn ':'
  let packGroups (gs : List (List Char)) : Option (List Nat) :=
    gs.foldr (fun g acc =>
      match hexGroup g, acc with
      | some v, some vs => some (v :: vs)
      | _, _ => none) (some [])
  let assemble (gs : List Nat) : Nat :=
    gs.foldl (fun a g => a * 65536 + g) 0
  match parts.findIdx? (· = []) with
  | none =>
      match packGroups parts with
      | some gs => if gs.length = 8 then some (assemble gs) else none
      | none => none
  | some i =>
      let left := parts.take i
      let restEmpties := (parts.drop i).takeWhile (· = [])
      let right := (parts.drop i).dropWhile (· = [])
      if restEmpties.length ≤ 2 ∧ ¬ right.contains [] then
        match packGroups left, packGroups right with
        | some ls, some rs =>
          if ls.length + rs.length ≤ 7 then
            some (assemble (ls ++ List.replicate (8 - ls.length - rs.length) 0 ++ rs))
          else none
        | _, _ => none
      else none

/-- Modelled from the spec: `cidr::Ipv6Cidr::from_str`. -/
def ipv6FromTextLen (text : Str) (dlen : Option Str) : Option Ipv6Cidr :=
  match ipv6FromText text with
  | some addr =>
    match dlen with
    | none => some ⟨addr, 128⟩
    | some ds =>
      if decVal ds < 256 && decVal ds ≤ 128 && addr % 2 ^ (128 - decVal ds) = 0
      then some ⟨addr, decVal ds⟩ else none
  | none => none

/-- `ipv6`: a hex run, then a hex-or-colon run, then an optional `/len`,
interpreted by the `cidr` crate. -/
def ipv6P (s : Str) : Option (Str × Entity) :=
  match takeWhile1 isHexC s with
  | some (h1, r1) =>
    match takeWhile1 hexColon r1 with
    | some (h2, r2) =>
      match r2 with
      | '/' :: r2b =>
        match takeWhile1 isDigitC r2b with
        | some (dl, r3) =>
          match ipv6FromTextLen (h1 ++ h2) (some dl) with
          | some c => some (r3, .IPv6 c)
          | none => none
        | none =>
          match ipv6FromTextLen (h1 ++ h2) none with
          | some c => some (r2, .IPv6 c)
          | none => none
      | _ =>
        match ipv6FromTextLen (h1 ++ h2) none with
        | some c => some (r2, .IPv6 c)
        | none => none
    | none => none
  | none => none

/-- `entity`: the ordered alternatives
`alt((email, hash_value, template, asn, signer, domain, url, ipv4, ipv6))`. -/
def entityP (s : Str) : Option (Str × Entity) :=
  match emailP s with
  | some (em, r) => some (r, .EMail em)
  | none =>
    match hashValueP s with
    | some res => some res
    | none =>
      match templateP s with
      | some res => some res
      | none =>
        match asnP s with
        | some res => some res
        | none =>
          match signerP s with
          | some res => some res
          | none =>
            match domainP s with
            | some (d, r) => some (r, .Domain d)
            | none =>
              match urlP s with
              | some res => some res
              | none =>
                match ipv4P s with
                | some res => some res
                | none => ipv6P s

/-- `Entity::from_str`: `all_consuming(entity)`. -/
def entityFromStr (s : Str) : Option Entity :=
  match entityP s with
  | some ([], e) => some e
  | _ => none

/-! ## Lookup keys (src/model/entity.rs) -/

/-- `Entity::domain` on a `Domain` payload: everything after the first
dot, with a dot appended when the remainder has none; `None` when there
is no dot or the dot is last. -/
def domainSuper (s : Str) : Option Str :=
  match s.findIdx? (· = '.') with
  | none => none
  | some n =>
    if n = s.length - 1 then none
    else
      let sup := s.drop (n + 1)
      if sup.contains '.' then some sup else some (sup ++ ['.'])

/-- Fuel-driven chain of `Domain::all_lookup_keys`: the domain itself,
then the keys of its super-domain. The fuel `2*length+2` supplied below
is always sufficient: the measure `2*length - (1 if trailing dot)`
strictly decreases along `domainSuper` (dropping at least one character,
or in the `n = 0` push-dot case turning a no-trailing-dot string into a
trailing-dot one of the same length). -/
def lookupKeysDomainF : Nat → Str → List Str
  | 0, _ => []
  | fuel + 1, d =>
    d :: (match domainSuper d with
          | some sup => lookupKeysDomainF fuel sup
          | none => [])

/-- `Entity::all_lookup_keys`; `none` models the panic on an e-mail
without `@` (the source unwraps `self.domain()` there). -/
def Entity.all_lookup_keys : Entity → Option (List Entity)
  | .EMail a =>
    match a.findIdx? (· = '@') with
    | some i =>
        let dom := a.drop (i + 1)
        some (.EMail a :: Entity.hash_string a ::
              (lookupKeysDomainF (2 * dom.length + 2) dom).map .Domain)
    | none => none
  | .Domain d => some ((lookupKeysDomainF (2 * d.length + 2) d).map .Domain)
  | e => some [e]

/-! ## Opinions (src/model/opinion.rs) -/

/-- `Opinion` (the unsigned payload). -/
structure Opinion where
  date : Nat
  valid : Nat
  serial : Nat
  certainty : Int
  comment : Str
deriving DecidableEq

/-- The percent-escape set: controls, space, double quote, comma,
semicolon, parentheses (the `percent_encoding` crate also escapes every
non-ASCII byte). -/
def escapedChar (c : Char) : Bool :=
  c.toNat < 32 || c.toNat = 127 || c.toNat ≥ 128 ||
  c = ' ' || c = '"' || c = ',' || c = ';' || c = '(' || c = ')'

/-- Modelled from the spec: `utf8_percent_encode` over the escape set
(ASCII-exact; multi-byte escapes of non-ASCII characters are collapsed
to one escape of the code point, which no theorem below exercises). -/
def percentEncode (s : Str) : Str :=
  s.flatMap (fun c =>
    if escapedChar c then '%' :: hex2 (c.toNat % 256) else [c])

/-- `Display for Opinion`: `date;valid;serial;certainty;comment`. -/
def Opinion.render (o : Opinion) : Str :=
  natDec o.date ++ ';' :: natDec o.valid ++ ';' :: natDec o.serial ++ ';' ::
  (if o.certainty < 0 then '-' :: natDec o.certainty.natAbs
   else natDec o.certainty.natAbs) ++ ';' :: percentEncode o.comment

/-- `Opinion::signable_bytes`: the rendered opinion followed by the
statement's signable bytes. -/
def Opinion.signable_bytes (o : Opinion) (statement_bytes : Str) : Str :=
  o.render ++ statement_bytes

/-- A signature (a byte string). -/
abbrev Signature := List Nat

/-- `SignedOpinion`. -/
structure SignedOpinion where
  opinion : Opinion
  signer : PublicKey
  signature : Signature
deriving DecidableEq

/-- `SignedStatement`: a statement with the signed opinions on it. -/
structure SignedStatement where
  statement : Statement
  opinions : List SignedOpinion
deriving DecidableEq

/-- Modelled from the spec: the deterministic signature a key produces
over a message (libp2p secp256k1 signing is outside src/); verification
below holds exactly for this signature, giving the spec's "verifiable
iff signer.verify(signable_bytes, signature)". -/
def canonicalSig (pk : PublicKey) (msg : Str) : Signature :=
  (match pk with
   | .Ed25519 bs => 1 :: bs
   | .Secp256k1 bs => 2 :: bs
   | .Rsa bs => 3 :: bs) ++ msg.map (fun c => c.toNat % 256)

/-- Modelled from the spec: `PublicKey::verify` of the libp2p crypto. -/
def verifyBytes (pk : PublicKey) (msg : Str) (sig : Signature) : Bool :=
  sig == canonicalSig pk msg

/-- `SignedOpinion::verify_signature`. -/
def SignedOpinion.verify_signature (so : SignedOpinion)
    (statement_bytes : Str) : Bool :=
  verifyBytes so.signer (so.opinion.signable_bytes statement_bytes) so.signature

/-! ## Storage (src/storage/mod.rs)

The statement table stores the rendered entity text in `entity_1..4` and
reparses it on fetch; rows here carry the entities that produced the
text and compare by rendered text, which is what every SQL comparison
does. -/

/-- A row of the `statement` table. -/
structure Row where
  id : Int
  name : Str
  entities : List Entity
  cidr_min : Option Str
  cidr_max : Option Str
deriving DecidableEq

/-- The text of entity column `i` (0-based), `none` for SQL NULL. -/
def Row.entityCol (r : Row) (i : Nat) : Option Str :=
  (r.entities.get? i).map Entity.render

/-- A row of the `opinion` table (the insert does not bind the comment
column, and `list_opinions_on` reconstructs an empty comment). -/
structure OpinionRow where
  id : Int
  statement_id : Int
  signer_id : Int
  date : Nat
  valid : Nat
  serial : Nat
  certainty : Int
  signature : Str
deriving DecidableEq

/-- The storage: the two tables, the in-memory caches, and the next
rowid of each table (modelling sqlite's `last_insert_rowid`). The caches
are association lists; `persist` appends, which for the cache reads
below (membership and `any`) is equivalent to the source's `HashMap`
insert. -/
structure Storage where
  statements : List Row
  opinions : List OpinionRow
  templates : List (Int × Template)
  signers : List (Int × PublicKey)
  nextStatementId : Int
  nextOpinionId : Int
deriving DecidableEq

/-- `Storage::has_matching_template`: any statement named `template` is
accepted outright ("always accept templates to allow bootstrapping"). -/
def Storage.has_matching_template (st : Storage) (stmt : Statement) : Bool :=
  stmt.name == str "template" ||
    st.templates.any (fun p => stmt.matches_template p.2)

/-- The WHERE clause built by `try_select_statement`. The SQL adds an
`entity_4 = ?` clause when a fourth entity is present, but the code then
binds the entity_3 text a second time (src/storage/mod.rs lines
285-292), so the fourth column is compared against the third entity's
text. -/
def rowMatchesSelect (row : Row) (name e1 : Str)
    (e2 e3 e4 : Option Str) : Bool :=
  row.name == name && row.entityCol 0 == some e1 &&
  (match e2 with
   | none => true
   | some s2 =>
     row.entityCol 1 == some s2 &&
     (match e3 with
      | none => true
      | some s3 =>
        row.entityCol 2 == some s3 &&
        (match e4 with
         | none => true
         | some _ => row.entityCol 3 == some s3)))

/-- `Storage::try_select_statement` (`fetch_optional`: first matching
row in table order). -/
def Storage.try_select_statement (st : Storage) (name e1 : Str)
    (e2 e3 e4 : Option Str) : Option Int :=
  (st.statements.find? (fun r => rowMatchesSelect r name e1 e2 e3 e4)).map Row.id

/-- SQL NULL-aware column equality: NULLs never conflict (SQLite UNIQUE
treats NULLs as distinct). -/
def colConflict : Option Str → Option Str → Bool
  | some a, some b => a == b
  | _, _ => false

/-- Modelled from the spec: the schema's
`unique(name, entity_1, entity_2, entity_3, entity_4)` constraint
(the migration SQL is not under src/). -/
def uniqueConflict (st : Storage) (name e1 : Str)
    (e2 e3 e4 : Option Str) : Bool :=
  st.statements.any (fun r =>
    r.name == name && r.entityCol 0 == some e1 &&
    colConflict (r.entityCol 1) e2 && colConflict (r.entityCol 2) e3 &&
    colConflict (r.entityCol 3) e4)

/-- `Storage::try_insert_statement`: fails on a unique-constraint
conflict, otherwise appends the row and returns `last_insert_rowid`. -/
def Storage.try_insert_statement (st : Storage) (stmt : Statement)
    (cidr_min cidr_max : Option Str) : Option (Int × Storage) :=
  let e1 := (stmt.entities.headD (.Domain [])).render
  let e2 := (stmt.entities.get? 1).map Entity.render
  let e3 := (stmt.entities.get? 2).map Entity.render
  let e4 := (stmt.entities.get? 3).map Entity.render
  if uniqueConflict st stmt.name e1 e2 e3 e4 then none
  else
    let id := st.nextStatementId
    some (id, { st with
      statements := st.statements ++
        [⟨id, stmt.name, stmt.entities.take 4, cidr_min, cidr_max⟩],
      nextStatementId := id + 1 })

/-- Database-layer errors as the code observes them. -/
inductive DbErr
  | rowNotFound
  | panic (msg : Str)
deriving DecidableEq

/-- `PersistResult<T>`. -/
structure PResult (α : Type) where
  id : Int
  data : α
  inserted : Bool
deriving DecidableEq

/-- The cache update at the end of `persist` (src/storage/mod.rs lines
636-641): a statement named `template` whose first entity is a template
entity is inserted into the templates cache; nothing else — in
particular not the signers cache — is touched. -/
def cacheTemplates (stmt : Statement) (e0 : Entity) (id : Int)
    (st2 : Storage) : Storage :=
  if stmt.name == str "template" then
    match e0 with
    | .Template t => { st2 with templates := st2.templates ++ [(id, t)] }
    | _ => st2
  else st2

/-- `Repository<Statement>::persist` (src/storage/mod.rs lines 584-642):
template check, select, insert with re-select on conflict, and the
templates-cache update; the signers cache is not touched. -/
def Storage.persist (st : Storage) (stmt : Statement) :
    Except DbErr (PResult Statement × Storage) :=
  if ¬ st.has_matching_template stmt then .error .rowNotFound
  else
    match stmt.entities with
    | [] => .error (.panic (str "index out of bounds"))
    | e0 :: _ =>
      let e1 := e0.render
      let (cmin, cmax) := e0.cidr_minmax
      let e2 := (stmt.entities.get? 1).map Entity.render
      let e3 := (stmt.entities.get? 2).map Entity.render
      let e4 := (stmt.entities.get? 3).map Entity.render
      match st.try_select_statement stmt.name e1 e2 e3 e4 with
      | some id => .ok (⟨id, stmt, false⟩, cacheTemplates stmt e0 id st)
      | none =>
        match st.try_insert_statement stmt cmin cmax with
        | some (id, st2) => .ok (⟨id, stmt, true⟩, cacheTemplates stmt e0 id st2)
        | none =>
          match st.try_select_statement stmt.name e1 e2 e3 e4 with
          | some id => .ok (⟨id, stmt, false⟩, cacheTemplates stmt e0 id st)
          | none => .error (.panic (str "could not insert statement"))

/-- `Storage::persist_opinion`: materialize the signer statement
(unwrapped — failure panics), compare with the existing
`(statement_id, signer_id)` row by `(date, serial)`, delete-and-insert
when the incoming opinion is newer. -/
def Storage.persist_opinion (st : Storage) (so : SignedOpinion)
    (statement_id : Int) : Except DbErr (PResult SignedOpinion × Storage) :=
  match st.persist (Statement.signer (.Signer so.signer)) with
  | .error _ => .error (.panic (str "could persist signer"))
  | .ok (sres, st1) =>
    let signerId := sres.id
    let insertNew : Storage → Except DbErr (PResult SignedOpinion × Storage) :=
      fun st2 =>
      let id := st2.nextOpinionId
      Except.ok (⟨id, so, true⟩,
        { st2 with
          opinions := st2.opinions ++
            [⟨id, statement_id, signerId, so.opinion.date, so.opinion.valid,
              so.opinion.serial, so.opinion.certainty,
              base64Encode so.signature⟩],
          nextOpinionId := id + 1 })
    match st1.opinions.find? (fun o =>
        o.statement_id == statement_id && o.signer_id == signerId) with
    | some prev =>
      if prev.date < so.opinion.date ∨
         (prev.date = so.opinion.date ∧ prev.serial < so.opinion.serial) then
        insertNew { st1 with
          opinions := st1.opinions.filter (fun o => o.id ≠ prev.id) }
      else .ok (⟨prev.id, so, false⟩, st1)
    | none => insertNew st1

/-- Bytewise (SQLite BINARY collation) string comparison `a ≤ b`. -/
def strLe : Str → Str → Bool
  | [], _ => true
  | _, [] => false
  | x :: xs, y :: ys => x.toNat < y.toNat || (x = y && strLe xs ys)

/-- Collect the image of a fallible function, failing when any element
fails (the shape of the source's loops whose body can panic). -/
def mapOpt {α β : Type} (f : α → Option β) : List α → Option (List β)
  | [] => some []
  | a :: l =>
    match f a, mapOpt f l with
    | some b, some bs => some (b :: bs)
    | _, _ => none

/-- Reconstruction of a fetched row as the source does it
(src/storage/mod.rs:197-215): every stored entity text is re-parsed
with `Entity::from_str(...).unwrap()`; `none` models the panic on a
stored text that does not parse back. -/
def Row.fetchStatement (r : Row) : Option (Int × Statement) :=
  match mapOpt (fun e => entityFromStr e.render) r.entities with
  | some es => some (r.id, ⟨r.name, es⟩)
  | none => none

/-- `Storage::find_statements_referencing`: CIDR containment for
IPv4 entities, `entity_1` text equality otherwise; every fetched row is
reconstructed by re-parsing its entity texts, and `none` models the
`unwrap` panic on a text that does not parse back. -/
def Storage.find_statements_referencing (st : Storage) (e : Entity) :
    Option (List (Int × Statement)) :=
  match e.cidr_minmax with
  | (some qmin, some qmax) =>
      mapOpt Row.fetchStatement (st.statements.filter (fun r =>
        match r.cidr_min, r.cidr_max with
        | some rmin, some rmax => strLe rmin qmin && strLe qmax rmax
        | _, _ => false))
  | _ =>
      mapOpt Row.fetchStatement
        (st.statements.filter (fun r => r.entityCol 0 == some e.render))

/-- `Storage::find_statements_about`: union over all lookup keys, then
the ASN indirection — `x.entities[1]` is read for every fetched
statement named `asn`, so `none` (a panic) results when such a statement
has fewer than two entities, and also when any reached row holds an
entity text that does not re-parse. -/
def Storage.find_statements_about (st : Storage) (e : Entity) :
    Option (List (Int × Statement)) :=
  match e.all_lookup_keys with
  | none => none
  | some keys =>
    match mapOpt (fun k => st.find_statements_referencing k) keys with
    | none => none
    | some lists =>
      let first := lists.flatten
      match mapOpt (fun p => p.2.entities.get? 1)
          (first.filter (fun p => p.2.name == str "asn")) with
      | none => none
      | some asns =>
        match mapOpt (fun a => st.find_statements_referencing a) asns with
        | none => none
        | some lists2 => some (first ++ lists2.flatten)

/-! ## Synchronization (src/storage/sync_info.rs, src/reputation_net/sync.rs) -/

/-- `SyncInfo`: per-name count and digest. -/
structure SyncInfo where
  count : Nat
  hash : Str
deriving DecidableEq

/-- `SyncInfos`: a date and the per-template-name infos (the source's
`HashMap` modelled as an association list). -/
structure SyncInfos where
  date : Nat
  infos : List (Str × SyncInfo)
deriving DecidableEq

/-- `SyncInfo::suggests_update`. -/
def SyncInfo.suggests_update (self other : SyncInfo) : Bool :=
  self.count < other.count ||
    (self.count == other.count && self.hash ≠ other.hash)

/-- `SyncState::add_infos` once `get_own_infos` has produced the own
infos for the peer's date (`none` models the storage-error case, where
the source returns no names). -/
def add_infos (ownOpt : Option SyncInfos) (peer : SyncInfos) : List Str :=
  match ownOpt with
  | none => []
  | some own =>
    peer.infos.foldl (fun acc p =>
      match own.infos.find? (fun q => q.1 == p.1) with
      | some ownPair =>
          if ownPair.2.suggests_update p.2 then acc ++ [p.1] else acc
      | none => acc ++ [p.1]) []

/-! ## Milter policy (src/milter/policy.rs, src/milter/config.rs) -/

/-- `Severity`, ordered `None < Quarantine < Tempfail < Reject < Known`. -/
inductive Severity
  | none
  | quarantine
  | tempfail
  | reject
  | known
deriving DecidableEq

/-- The discriminant values of `Severity`. -/
def Severity.level : Severity → Nat
  | .none => 0
  | .quarantine => 1
  | .tempfail => 2
  | .reject => 3
  | .known => 4

/-- Rust `Ord::max` on `Severity`. -/
def Severity.max (a b : Severity) : Severity :=
  if a.level ≤ b.level then b else a

/-- `Statement::severity` (src/milter/policy.rs). -/
def Statement.severity (s : Statement) : Severity :=
  if s.name = str "spammer" then .reject
  else if s.name = str "exploited" then .reject
  else if s.name = str "spammer_friendly" then .tempfail
  else if s.name = str "dynamic" then .tempfail
  else if s.name = str "known" then .known
  else .none

/-- `Location`. -/
inductive Location
  | ConnectAddress
  | ConnectName
  | Helo
  | MailFrom
  | RcptTo
  | Header (name : Str)
  | Body
deriving DecidableEq

/-- ASCII lowercase of a string. -/
def lowerStr (s : Str) : Str := s.map Char.toLower

/-- `Location::prefix`: the stage component of a rule's field path. -/
def Location.stagePath : Location → Str
  | .ConnectName => str "connect.client-name"
  | .ConnectAddress => str "connect.client-addr"
  | .Helo => str "envelope.helo"
  | .MailFrom => str "envelope.mail-from"
  | .RcptTo => str "envelope.rcpt-to"
  | .Header key => str "header." ++ lowerStr key
  | .Body => str "body"

/-- `FieldValue` (src/milter/field.rs). -/
inductive FieldValue
  | Str (s : List Char)
  | Domain (s : List Char)
  | Mail (s : List Char)
  | Url (s : List Char)
  | Ipv4 (s : List Char)
  | Ipv6 (s : List Char)
  | Header (s : List Char)
deriving DecidableEq

/-- `FieldValue::data`. -/
def FieldValue.data : FieldValue → List Char
  | .Str s => s
  | .Domain s => s
  | .Mail s => s
  | .Url s => s
  | .Ipv4 s => s
  | .Ipv6 s => s
  | .Header s => s

/-- `List` of the milter config (the rule's `match` specification). -/
inductive CfgList
  | Single (s : Str)
  | Multi (ls : List CfgList)
  | Named (list : Str)
  | Reputation (reputation : Str)

/-- `FieldRef`. -/
inductive FieldRef
  | Single (s : Str)
  | Multi (ss : List Str)
deriving DecidableEq

/-- `Action`. -/
inductive Action
  | Hold (s : Str)
  | Reject (s : Str)
  | Defer (s : Str)
deriving DecidableEq

/-- `MatchResult`. -/
structure MatchResult where
  field : Str
  priority : Nat
  action : Action
deriving DecidableEq

/-- `Rule` (the unused `condition` field is omitted). -/
structure Rule where
  priority : Option Nat
  field : Option FieldRef
  list : Option CfgList
  reject : Option Str
  defer : Option Str
  hold : Option Str

/-- The milter `Config`: rules and named lists (maps as assoc lists). -/
structure Config where
  contact : Option Str
  rules : List (Str × Rule)
  lists : List (Str × CfgList)

/-- `FieldRef::paths_matching_prefix`: the suffixes of the paths that
start with the stage component. -/
def FieldRef.pathsMatching (fr : FieldRef) (pre : Str) : List Str :=
  match fr with
  | .Single s => if pre.isPrefixOf s then [s.drop pre.length] else []
  | .Multi ss => ss.filterMap (fun s =>
      if pre.isPrefixOf s then some (s.drop pre.length) else none)

/-- `Rule::paths_matching_prefix`. -/
def Rule.pathsMatching (r : Rule) (pre : Str) : List Str :=
  match r.field with
  | some fr => fr.pathsMatching pre
  | none => []

/-- `Rule::action`. -/
def Rule.action (r : Rule) : Action :=
  match r.reject with
  | some reason => .Reject reason
  | none =>
    match r.defer with
    | some reason => .Defer reason
    | none =>
      match r.hold with
      | some reason => .Hold reason
      | none => .Hold (str "no reason given")

/-- `Rule::field_name` (a `Debug` rendering of the field reference; the
exact text is not load-bearing for any theorem). -/
def Rule.field_name (r : Rule) : Str :=
  match r.field with
  | none => str "None"
  | some (.Single s) => s
  | some (.Multi ss) => ss.flatten

/-- `List::matches_value` as a worklist over the pending disjuncts
(left-to-right with short-circuit, like the source's recursion); `none`
models the panic of the unwrapped `find_statements_about` in the
`Reputation` arm. The fuel bounds `Named` indirection — the source's
recursion is unbounded there (`async_recursion`); the caller passes more
levels than any theorem uses. -/
def matchesAnyF (cfg : Config) (st : Storage) (v : FieldValue) :
    Nat → List CfgList → Option Bool
  | _, [] => some false
  | 0, _ :: _ => some false
  | fuel + 1, l :: ls =>
    match l with
    | .Single s =>
        if v.data == s then some true else matchesAnyF cfg st v fuel ls
    | .Multi ms => matchesAnyF cfg st v fuel (ms ++ ls)
    | .Named nm =>
      match cfg.lists.find? (fun p => p.1 == nm) with
      | some p => matchesAnyF cfg st v fuel (p.2 :: ls)
      | none => matchesAnyF cfg st v fuel ls
    | .Reputation tag =>
      match entityFromStr v.data with
      | some e =>
        match st.find_statements_about e with
        | none => none
        | some stmts =>
          if stmts.any (fun q => q.2.name == tag) then some true
          else matchesAnyF cfg st v fuel ls
      | none => matchesAnyF cfg st v fuel ls

/-- `List::matches_value`. -/
def CfgList.matches_value (l : CfgList) (v : FieldValue) (cfg : Config)
    (st : Storage) : Option Bool :=
  matchesAnyF cfg st v 100 [l]

/-- `Rule::match_value`; the outer `Option` is the panic, the inner the
source's `Option<MatchResult>`. -/
def Rule.match_value (r : Rule) (v : FieldValue) (cfg : Config)
    (st : Storage) : Option (Option MatchResult) :=
  match r.list with
  | some l =>
    match l.matches_value v cfg st with
    | none => none
    | some true => some (some ⟨r.field_name, r.priority.getD 5, r.action⟩)
    | some false => some none
  | none => some none

/-- One recorded `Match` of the accumulator. -/
structure PMatch where
  location : Location
  path : Str
  entity : Entity
  statement : Statement
deriving DecidableEq

/-- `PolicyAccumulator` (the storage and config handles live outside). -/
structure PolicyAccumulator where
  macros : List (Str × Str)
  match_list : List PMatch
  severity : Severity
deriving DecidableEq

/-- `PolicyAccumulator::new` / `reset`. -/
def PolicyAccumulator.fresh : PolicyAccumulator := ⟨[], [], .none⟩

/-- `PolicyAccumulator::lookup` (the live lookup, src/milter/policy.rs
lines 110-133): walks every configured rule and path, resolves the leaf
values (`lookup_path`, whose DNS behaviour is the `dns` oracle), and
evaluates `match_value` — but only prints matches; the accumulator is
returned as it was. The log of matches is returned alongside; `none`
models a panic inside a reputation query. -/
def PolicyAccumulator.lookup (cfg : Config) (st : Storage)
    (dns : FieldValue → Str → List FieldValue) (acc : PolicyAccumulator)
    (location : Location) (value : FieldValue) :
    Option (PolicyAccumulator × List (Str × MatchResult)) :=
  let items := cfg.rules.flatMap (fun rp =>
    (rp.2.pathsMatching location.stagePath).flatMap (fun path =>
      (dns value path).map (fun v => (rp.1, rp.2, v))))
  match items.mapM (fun it =>
      (it.2.1.match_value it.2.2 cfg st).map (fun res => (it.1, res))) with
  | some logs =>
      some (acc, logs.filterMap (fun p => p.2.map (fun mr => (p.1, mr))))
  | none => none

/-- The accumulation step of `old_lookup`: record the match and take the
severity maximum, ignoring `dynamic` outside the CONNECT stage. -/
def oldLookupStep (location : Location) (entity : Entity)
    (a : PolicyAccumulator) (stmt : Statement) : PolicyAccumulator :=
  if location = .ConnectName ∨ location = .ConnectAddress ∨
     stmt.name ≠ str "dynamic" then
    { a with
      severity := a.severity.max stmt.severity,
      match_list := a.match_list ++ [⟨location, [], entity, stmt⟩] }
  else a

/-- `PolicyAccumulator::old_lookup` (dead code in the source): parses
the token, fetches the statements about it, and accumulates severity
and matches, ignoring `dynamic` outside the CONNECT stage; `none` is
the panic of the unwrapped `find_statements_about`. -/
def PolicyAccumulator.old_lookup (st : Storage) (acc : PolicyAccumulator)
    (location : Location) (what : Str) : Option PolicyAccumulator :=
  match entityFromStr what with
  | Option.none => some acc
  | some entity =>
    match st.find_statements_about entity with
    | Option.none => none
    | some pstmts =>
      some ((pstmts.map Prod.snd).foldl (oldLookupStep location entity) acc)

/-! ## Broadcast handling (src/reputation_net/mod.rs lines 274-320) -/

/-- The `BroadcastMessage::Statement` arm of `handle_broadcast_message`:
persist the statement — a `No matching template` rejection is only
logged — then persist every included signed opinion, each unwrapped with
`expect("could insert opinion")`. The gossipsub subscribe and the sync
flush are transport effects outside the storage state. -/
def handle_broadcast_statement (st : Storage) (ss : SignedStatement) :
    Except DbErr Storage :=
  match st.persist ss.statement with
  | .error .rowNotFound => .ok st
  | .error e => .error e
  | .ok (pres, st1) =>
    ss.opinions.foldlM (fun acc so =>
      match acc.persist_opinion so pres.id with
      | .error e => Except.error e
      | .ok (_, st2) => Except.ok st2) st1

/-! ## General list helpers -/

instance {ε α : Type} [DecidableEq ε] [DecidableEq α] :
    DecidableEq (Except ε α) := fun x y =>
  match x, y with
  | .ok a, .ok b =>
    if h : a = b then isTrue (by rw [h])
    else isFalse (fun hc => by cases hc; exact h rfl)
  | .error a, .error b =>
    if h : a = b then isTrue (by rw [h])
    else isFalse (fun hc => by cases hc; exact h rfl)
  | .ok _, .error _ => isFalse (fun hc => by cases hc)
  | .error _, .ok _ => isFalse (fun hc => by cases hc)

theorem takeWhile_append_all {p : Char → Bool} {l r : Str}
    (h : ∀ c ∈ l, p c = true) :
    (l ++ r).takeWhile p = l ++ r.takeWhile p := by
  induction l with
  | nil => simp
  | cons a t ih =>
    rw [List.cons_append, List.takeWhile_cons,
      h a (List.mem_cons_self a t)]
    rw [if_pos rfl, List.cons_append,
      ih (fun c hc => h c (List.mem_cons_of_mem a hc))]

theorem dropWhile_append_all {p : Char → Bool} {l r : Str}
    (h : ∀ c ∈ l, p c = true) :
    (l ++ r).dropWhile p = r.dropWhile p := by
  induction l with
  | nil => simp
  | cons a t ih =>
    rw [List.cons_append, List.dropWhile_cons]
    rw [h a (List.mem_cons_self a t), if_pos rfl]
    exact ih (fun c hc => h c (List.mem_cons_of_mem a hc))

theorem takeWhile_nil_of_head {p : Char → Bool} {l : Str} {c : Char}
    (hh : l.head? = some c) (hc : p c = false) : l.takeWhile p = [] := by
  cases l with
  | nil => simp at hh
  | cons a l =>
    simp only [List.head?_cons, Option.some.injEq] at hh
    subst hh
    simp [List.takeWhile_cons, hc]

/-! ## Fixtures -/

/-- The root template `template(Template)`. -/
def rootTemplate : Template := ⟨str "template", [[.Template]]⟩

/-- The bootstrap template `signer(Signer)`. -/
def signerTemplate : Template := ⟨str "signer", [[.Signer]]⟩

/-- The root self-referential statement `template(template(Template))`. -/
def rootTemplateStatement : Statement :=
  ⟨str "template", [.Template rootTemplate]⟩

/-- A freshly initialized storage: the two bootstrap template statements
and the corresponding cache entries. -/
def bootStorage : Storage where
  statements :=
    [⟨1, str "template", [.Template rootTemplate], none, none⟩,
     ⟨2, str "template", [.Template signerTemplate], none, none⟩]
  opinions := []
  templates := [(1, rootTemplate), (2, signerTemplate)]
  signers := []
  nextStatementId := 3
  nextOpinionId := 1

/-! ## Claim C4 — template matching -/

/-- Claim C4 as stated is false: `matches_template` compares no arities.
The one-entity statement `abuse(example.com)` matches the two-slot
template `abuse(Domain,EMail|Url)` although the arities differ. -/
theorem claim_C4_counterexample :
    Statement.matches_template ⟨str "abuse", [.Domain (str "example.com")]⟩
      ⟨str "abuse", [[.Domain], [.EMail, .Url]]⟩ = true ∧
    (⟨str "abuse", [.Domain (str "example.com")]⟩ : Statement).entities.length ≠
      (⟨str "abuse", [[.Domain], [.EMail, .Url]]⟩ : Template).entity_types.length := by
  constructor
  · decide
  · decide

/-- Claim C4, amended: `matches_template` returns true iff the names
agree and, positionally over the zip of entities and slots (i.e. up to
the shorter of the two lengths), each entity's type lies in the
corresponding disjunction; the arities are not compared. -/
theorem claim_C4_amended (s : Statement) (t : Template) :
    s.matches_template t = true ↔
      (s.name = t.name ∧
       ∀ i e tys, s.entities.get? i = some e →
         t.entity_types.get? i = some tys → e.entity_type ∈ tys) := by
  unfold Statement.matches_template
  rw [Bool.and_eq_true, beq_iff_eq, List.all_eq_true]
  constructor
  · rintro ⟨hn, hall⟩
    refine ⟨hn, ?_⟩
    intro i e tys he hty
    have hmem : (e, tys) ∈ s.entities.zip t.entity_types := by
      rw [List.mem_iff_get?]
      exact ⟨i, (List.get?_zip_eq_some ..).mpr ⟨he, hty⟩⟩
    have := hall _ hmem
    simpa [List.elem_iff] using this
  · rintro ⟨hn, hpos⟩
    refine ⟨hn, ?_⟩
    intro p hp
    rw [List.mem_iff_get?] at hp
    obtain ⟨i, hi⟩ := hp
    obtain ⟨h1, h2⟩ := (List.get?_zip_eq_some ..).mp hi
    have := hpos i p.1 p.2 h1 h2
    simpa [List.elem_iff] using this

/-! ## Claim C5 — the template-admission exception -/

/-- Claim C5 as stated is false: `has_matching_template` admits every
statement named `template`. On the freshly initialized storage, the
statement `template(example.com)` matches no cached template and is not
the root self-reference, yet `persist` succeeds. -/
theorem claim_C5_counterexample :
    (bootStorage.persist ⟨str "template", [.Domain (str "example.com")]⟩).isOk = true ∧
    bootStorage.templates.all (fun p =>
      !(Statement.matches_template ⟨str "template", [.Domain (str "example.com")]⟩ p.2)) = true ∧
    (⟨str "template", [.Domain (str "example.com")]⟩ : Statement) ≠ rootTemplateStatement := by
  refine ⟨by decide, by decide, by decide⟩

/-- Claim C5, amended: `persist` rejects with the no-matching-template
error iff the statement is not named `template` and no cached template
matches it; every statement named `template` — not only the root
self-reference — is admitted past the template check. -/
theorem claim_C5_amended (st : Storage) (stmt : Statement) :
    st.persist stmt = .error .rowNotFound ↔
      (stmt.name ≠ str "template" ∧
       ∀ p ∈ st.templates, stmt.matches_template p.2 = false) := by
  constructor
  · intro h
    unfold Storage.persist at h
    split at h
    · next hnot =>
      rw [Bool.not_eq_true, Storage.has_matching_template,
        Bool.or_eq_false_iff] at hnot
      obtain ⟨h1, h2⟩ := hnot
      refine ⟨by simpa using h1, ?_⟩
      intro p hp
      rw [List.any_eq_false] at h2
      simpa using h2 p hp
    · exfalso
      split at h
      · simp at h
      · dsimp only at h
        split at h
        · simp at h
        · split at h
          · simp at h
          · split at h
            · simp at h
            · simp at h
  · rintro ⟨h1, h2⟩
    have hnot : st.has_matching_template stmt = false := by
      rw [Storage.has_matching_template, Bool.or_eq_false_iff]
      constructor
      · simpa using h1
      · rw [List.any_eq_false]
        intro p hp
        simp [h2 p hp]
    unfold Storage.persist
    rw [hnot]
    simp

/-! ## Claim C9 — the synchronization pull decision -/

/-- The pull list computed by `add_infos` is the names of the peer
entries whose own counterpart is missing or suggests an update. -/
theorem add_infos_eq (own peer : SyncInfos) :
    add_infos (some own) peer =
      (peer.infos.filter (fun p =>
        match own.infos.find? (fun q => q.1 == p.1) with
        | some op => op.2.suggests_update p.2
        | none => true)).map Prod.fst := by
  unfold add_infos
  suffices h : ∀ (l : List (Str × SyncInfo)) (acc : List Str),
      l.foldl (fun acc p =>
        match own.infos.find? (fun q => q.1 == p.1) with
        | some ownPair =>
            if ownPair.2.suggests_update p.2 then acc ++ [p.1] else acc
        | none => acc ++ [p.1]) acc =
      acc ++ (l.filter (fun p =>
        match own.infos.find? (fun q => q.1 == p.1) with
        | some op => op.2.suggests_update p.2
        | none => true)).map Prod.fst by
    simpa using h peer.infos []
  intro l
  induction l with
  | nil => intro acc; simp
  | cons p l ih =>
    intro acc
    simp only [List.foldl_cons, List.filter_cons]
    cases hf : own.infos.find? (fun q => q.1 == p.1) with
    | none => rw [ih]; simp
    | some op =>
      by_cases hs : op.2.suggests_update p.2 = true
      · simp only [hs, if_true]
        rw [ih]; simp
      · simp only [Bool.not_eq_true] at hs
        simp only [hs, if_false]
        rw [ih]; simp

/-- Claim C9, confirmed: `add_infos` returns exactly the names occurring
in the peer's infos whose own entry is missing, has a smaller count, or
has an equal count and a different hash; names present only in the own
map are never returned. -/
theorem claim_C9 (own peer : SyncInfos) (name : Str) :
    name ∈ add_infos (some own) peer ↔
      ∃ info, (name, info) ∈ peer.infos ∧
        (own.infos.find? (fun q => q.1 == name) = none ∨
         ∃ op, own.infos.find? (fun q => q.1 == name) = some op ∧
           (op.2.count < info.count ∨
            (op.2.count = info.count ∧ op.2.hash ≠ info.hash))) := by
  rw [add_infos_eq, List.mem_map]
  constructor
  · rintro ⟨p, hp, hname⟩
    rw [List.mem_filter] at hp
    obtain ⟨hpm, hpc⟩ := hp
    subst hname
    refine ⟨p.2, hpm, ?_⟩
    cases hf : own.infos.find? (fun q => q.1 == p.1) with
    | none => exact Or.inl rfl
    | some op =>
      rw [hf] at hpc
      refine Or.inr ⟨op, rfl, ?_⟩
      unfold SyncInfo.suggests_update at hpc
      rcases Bool.or_eq_true .. |>.mp hpc with h | h
      · exact Or.inl (by simpa using h)
      · rw [Bool.and_eq_true] at h
        exact Or.inr ⟨by simpa using h.1, by simpa using h.2⟩
  · rintro ⟨info, hmem, hcond⟩
    refine ⟨(name, info), ?_, rfl⟩
    rw [List.mem_filter]
    refine ⟨hmem, ?_⟩
    rcases hcond with hf | ⟨op, hf, hup⟩
    · simp only [hf]
    · simp only [hf]
      unfold SyncInfo.suggests_update
      rw [Bool.or_eq_true]
      rcases hup with h | ⟨h1, h2⟩
      · exact Or.inl (by simpa using h)
      · exact Or.inr (by rw [Bool.and_eq_true]; exact ⟨by simpa using h1, by simpa using h2⟩)

/-! ## Claim C10 — the unchecked `entities[1]` in `find_statements_about` -/

theorem mapOpt_isSome {α β : Type} (f : α → Option β) (l : List α)
    (h : ∀ x ∈ l, (f x).isSome = true) : (mapOpt f l).isSome = true := by
  induction l with
  | nil => rfl
  | cons a l ih =>
    have ha := h a (by simp)
    have hl := ih (fun x hx => h x (by simp [hx]))
    rw [mapOpt]
    cases hfa : f a with
    | none => rw [hfa] at ha; simp at ha
    | some b =>
      cases hml : mapOpt f l with
      | none => rw [hml] at hl; simp at hl
      | some bs => simp

theorem mapOpt_mem {α β : Type} {f : α → Option β} :
    ∀ {l : List α} {bs : List β}, mapOpt f l = some bs →
      ∀ b ∈ bs, ∃ a ∈ l, f a = some b := by
  intro l
  induction l with
  | nil =>
    intro bs h b hb
    simp only [mapOpt, Option.some.injEq] at h
    subst h
    cases hb
  | cons a l ih =>
    intro bs h b hb
    rw [mapOpt] at h
    cases hfa : f a with
    | none => rw [hfa] at h; exact absurd h (by simp)
    | some b0 =>
      rw [hfa] at h
      cases hml : mapOpt f l with
      | none => rw [hml] at h; exact absurd h (by simp)
      | some bs0 =>
        rw [hml] at h
        injection h with h2
        subst h2
        rcases List.mem_cons.mp hb with rfl | hb2
        · exact ⟨a, List.mem_cons_self _ _, hfa⟩
        · obtain ⟨a2, ha2, hfa2⟩ := ih hml b hb2
          exact ⟨a2, List.mem_cons_of_mem _ ha2, hfa2⟩

theorem mapOpt_length {α β : Type} {f : α → Option β} :
    ∀ {l : List α} {bs : List β}, mapOpt f l = some bs →
      bs.length = l.length := by
  intro l
  induction l with
  | nil =>
    intro bs h
    simp only [mapOpt, Option.some.injEq] at h
    subst h
    rfl
  | cons a l ih =>
    intro bs h
    rw [mapOpt] at h
    cases hfa : f a with
    | none => rw [hfa] at h; exact absurd h (by simp)
    | some b0 =>
      rw [hfa] at h
      cases hml : mapOpt f l with
      | none => rw [hml] at h; exact absurd h (by simp)
      | some bs0 =>
        rw [hml] at h
        injection h with h2
        subst h2
        simp [ih hml]

theorem fetchStatement_isSome {r : Row}
    (h : ∀ en ∈ r.entities, (entityFromStr en.render).isSome = true) :
    r.fetchStatement.isSome = true := by
  unfold Row.fetchStatement
  have hm := mapOpt_isSome (fun e => entityFromStr e.render) r.entities h
  cases hmm : mapOpt (fun e => entityFromStr e.render) r.entities with
  | none => rw [hmm] at hm; simp at hm
  | some es => simp

theorem fetchStatement_shape {r : Row} {p : Int × Statement}
    (h : r.fetchStatement = some p) :
    p.2.name = r.name ∧ p.2.entities.length = r.entities.length := by
  unfold Row.fetchStatement at h
  cases hmm : mapOpt (fun e => entityFromStr e.render) r.entities with
  | none => rw [hmm] at h; exact absurd h (by simp)
  | some es =>
    rw [hmm] at h
    injection h with h2
    subst h2
    exact ⟨rfl, mapOpt_length hmm⟩

/-- With every stored entity text re-parseable, fetching never panics. -/
theorem find_ref_isSome {st : Storage} (e : Entity)
    (hre : ∀ r ∈ st.statements, ∀ en ∈ r.entities,
      (entityFromStr en.render).isSome = true) :
    (st.find_statements_referencing e).isSome = true := by
  unfold Storage.find_statements_referencing
  have key : ∀ P : Row → Bool,
      (mapOpt Row.fetchStatement (st.statements.filter P)).isSome = true := by
    intro P
    apply mapOpt_isSome
    intro r hr
    exact fetchStatement_isSome (hre r (List.mem_filter.mp hr).1)
  rcases hmm : e.cidr_minmax with ⟨mn, mx⟩
  cases mn with
  | some qmin =>
    cases mx with
    | some qmax => exact key _
    | none => exact key _
  | none => exact key _

/-- Every fetched statement keeps its row name and arity. -/
theorem find_ref_shape {st : Storage} {e : Entity}
    {l : List (Int × Statement)}
    (hl : st.find_statements_referencing e = some l)
    {p : Int × Statement} (hp : p ∈ l) :
    ∃ r ∈ st.statements, p.2.name = r.name ∧
      p.2.entities.length = r.entities.length := by
  unfold Storage.find_statements_referencing at hl
  have key : ∀ {P : Row → Bool},
      mapOpt Row.fetchStatement (st.statements.filter P) = some l →
      ∃ r ∈ st.statements, p.2.name = r.name ∧
        p.2.entities.length = r.entities.length := by
    intro P h
    obtain ⟨r, hr, hfr⟩ := mapOpt_mem h p hp
    obtain ⟨h2, h3⟩ := fetchStatement_shape hfr
    exact ⟨r, (List.mem_filter.mp hr).1, h2, h3⟩
  rcases hmm : e.cidr_minmax with ⟨mn, mx⟩
  rw [hmm] at hl
  cases mn with
  | some qmin =>
    cases mx with
    | some qmax => exact key hl
    | none => exact key hl
  | none => exact key hl

/-- A store holding a one-entity statement named `asn` reachable from
the probe `x.com`. -/
def asnOneStore : Storage where
  statements := [⟨1, str "asn", [.Domain (str "x.com")], none, none⟩]
  opinions := []
  templates := []
  signers := []
  nextStatementId := 2
  nextOpinionId := 1

/-- A store whose only statement is `spammer(::1)`: it holds no `asn`
statement at all, yet `find_statements_about` on the probe `::1` panics,
because the fetched row is rebuilt with `Entity::from_str(...).unwrap()`
and the stored text `::1` does not re-parse. -/
def spam6Store : Storage where
  statements := [⟨1, str "spammer", [.IPv6 ⟨1, 128⟩], none, none⟩]
  opinions := []
  templates := []
  signers := []
  nextStatementId := 2
  nextOpinionId := 1

/-- Claim C10 as stated is false in its no-panic half: on a store in
which every statement named `asn` has at least two entities (here:
no `asn` statement at all), `find_statements_about` still panics — the
row `spammer(::1)` is reached by text equality and its re-parse
unwrap fails. -/
theorem claim_C10_counterexample :
    (∀ r ∈ spam6Store.statements, r.name = str "asn" →
      2 ≤ r.entities.length) ∧
    spam6Store.find_statements_about (.IPv6 ⟨1, 128⟩) = none := by decide

/-- Claim C10, amended: `find_statements_about` reads `entities[1]` of
every fetched statement named `asn`, and the fetch re-parses every
stored entity text with an unwrap; so it completes without panicking
when the lookup keys of the probe exist, every stored entity text parses
back, and every `asn` statement has at least two entities — and it
panics (`none` in this embedding) on a store holding a one-entity `asn`
statement reachable via a lookup key of the probe. -/
theorem claim_C10_amended :
    (∀ (st : Storage) (e : Entity) (keys : List Entity),
        e.all_lookup_keys = some keys →
        (∀ r ∈ st.statements, ∀ en ∈ r.entities,
          (entityFromStr en.render).isSome = true) →
        (∀ r ∈ st.statements, r.name = str "asn" → 2 ≤ r.entities.length) →
        (st.find_statements_about e).isSome = true) ∧
    asnOneStore.find_statements_about (.Domain (str "x.com")) = none := by
  constructor
  · intro st e keys hkeys hre hlen
    unfold Storage.find_statements_about
    rw [hkeys]
    have h1 : (mapOpt (fun k => st.find_statements_referencing k)
        keys).isSome = true :=
      mapOpt_isSome _ _ (fun k _ => find_ref_isSome k hre)
    cases hm1 : mapOpt (fun k => st.find_statements_referencing k) keys with
    | none => rw [hm1] at h1; simp at h1
    | some lists =>
      have h2 : (mapOpt (fun (p : Int × Statement) => p.2.entities.get? 1)
          (lists.flatten.filter (fun p => p.2.name == str "asn"))).isSome =
          true := by
        apply mapOpt_isSome
        intro p hp
        rw [List.mem_filter] at hp
        obtain ⟨hpm, hpasn⟩ := hp
        rw [List.mem_flatten] at hpm
        obtain ⟨l0, hl0, hpl0⟩ := hpm
        obtain ⟨k, _, hk⟩ := mapOpt_mem hm1 l0 hl0
        obtain ⟨r, hr, hname, hlen2⟩ := find_ref_shape hk hpl0
        have hnm : r.name = str "asn" := by
          rw [← hname]
          simpa using hpasn
        have hge := hlen r hr hnm
        rw [Option.isSome_iff_exists]
        have h1lt : 1 < p.2.entities.length := by omega
        exact ⟨_, List.get?_eq_get h1lt⟩
      cases hm2 : mapOpt (fun (p : Int × Statement) => p.2.entities.get? 1)
          (lists.flatten.filter (fun p => p.2.name == str "asn")) with
      | none => rw [hm2] at h2; simp at h2
      | some asns =>
        dsimp only
        have h3 : (mapOpt (fun a => st.find_statements_referencing a)
            asns).isSome = true :=
          mapOpt_isSome _ _ (fun a _ => find_ref_isSome a hre)
        cases hm3 : mapOpt (fun a => st.find_statements_referencing a)
            asns with
        | none => rw [hm3] at h3; simp at h3
        | some lists2 =>
          rw [hm1]
          dsimp only
          rw [hm2]
          dsimp only
          rw [hm3]
          rfl
  · decide

/-- A store demonstrating the non-panicking side of C10 concretely. -/
def asnTwoStore : Storage where
  statements := [⟨1, str "asn", [.Domain (str "a.com"), .AS 5], none, none⟩]
  opinions := []
  templates := []
  signers := []
  nextStatementId := 2
  nextOpinionId := 1

/-- Witness for the universally quantified half of C10. -/
theorem claim_C10_witness :
    (asnTwoStore.find_statements_about (.Domain (str "a.com"))).isSome =
      true :=
  claim_C10_amended.1 asnTwoStore (.Domain (str "a.com"))
    [.Domain (str "a.com"), .Domain (str "com.")] (by decide) (by decide)
    (by decide)

/-! ## Claim C8 — cache maintenance on persist -/

theorem cacheTemplates_signers (stmt : Statement) (e0 : Entity) (id : Int)
    (st2 : Storage) : (cacheTemplates stmt e0 id st2).signers = st2.signers := by
  unfold cacheTemplates
  split
  · split <;> rfl
  · rfl

theorem cacheTemplates_mem {stmt : Statement} {t : Template} (id : Int)
    (st2 : Storage) (hname : stmt.name = str "template") :
    (id, t) ∈ (cacheTemplates stmt (.Template t) id st2).templates := by
  unfold cacheTemplates
  rw [if_pos (by simpa using hname)]
  simp

theorem try_insert_signers {st : Storage} {stmt : Statement}
    {cmin cmax : Option Str} {id : Int} {st2 : Storage}
    (h : st.try_insert_statement stmt cmin cmax = some (id, st2)) :
    st2.signers = st.signers := by
  unfold Storage.try_insert_statement at h
  dsimp only at h
  split at h
  · simp at h
  · obtain ⟨h1, h2⟩ := Option.some.inj h |> Prod.mk.inj
    subst h2
    rfl

/-- Claim C8, amended: a successful `persist` never modifies the
signers cache (only `read_signers` at startup fills it), and it inserts
into the templates cache exactly when the statement is named `template`
and its first entity is a template entity — in which case the parsed
template is cached under the returned id. -/
theorem claim_C8_amended (st : Storage) (stmt : Statement)
    (res : PResult Statement) (st' : Storage)
    (h : st.persist stmt = .ok (res, st')) :
    st'.signers = st.signers ∧
    (∀ t : Template, stmt.name = str "template" →
      stmt.entities.head? = some (.Template t) →
      (res.id, t) ∈ st'.templates) := by
  unfold Storage.persist at h
  split at h
  · simp at h
  split at h
  · simp at h
  next e0 rest hent =>
    dsimp only at h
    have hhead0 : stmt.entities.head? = some e0 := by rw [hent]; rfl
    split at h
    · next id hsel =>
      obtain ⟨h1, h2⟩ := Except.ok.inj h |> Prod.mk.inj
      subst h1; subst h2
      refine ⟨cacheTemplates_signers .., ?_⟩
      intro t hnm hhead
      rw [hhead0] at hhead
      obtain rfl := Option.some.inj hhead
      exact cacheTemplates_mem id st hnm
    · split at h
      · next id st2 hins =>
        obtain ⟨h1, h2⟩ := Except.ok.inj h |> Prod.mk.inj
        subst h1; subst h2
        refine ⟨by rw [cacheTemplates_signers, try_insert_signers hins], ?_⟩
        intro t hnm hhead
        rw [hhead0] at hhead
        obtain rfl := Option.some.inj hhead
        exact cacheTemplates_mem id st2 hnm
      · split at h
        · next id hsel2 =>
          obtain ⟨h1, h2⟩ := Except.ok.inj h |> Prod.mk.inj
          subst h1; subst h2
          refine ⟨cacheTemplates_signers .., ?_⟩
          intro t hnm hhead
          rw [hhead0] at hhead
          obtain rfl := Option.some.inj hhead
          exact cacheTemplates_mem id st hnm
        · simp at h

/-- An example secp256k1 public key (compressed-form byte shape). -/
def pk0 : PublicKey := .Secp256k1 (2 :: List.replicate 32 7)

/-- Claim C8 as stated is false for the signer half: persisting the
statement `signer(<pk>)` on the freshly initialized storage succeeds as
an insert, yet the signers cache stays empty. -/
theorem claim_C8_counterexample :
    ((bootStorage.persist (Statement.signer (.Signer pk0))).toOption.map
      (fun p => (p.1.inserted, p.2.signers))) = some (true, []) ∧
    bootStorage.signers = [] := by
  constructor
  · decide
  · rfl

/-- Witness for the amended C8. -/
theorem claim_C8_witness :
    ({ bootStorage with
        templates := bootStorage.templates ++ [(1, rootTemplate)] } : Storage).signers =
      bootStorage.signers ∧
    ((1 : Int), rootTemplate) ∈
      ({ bootStorage with
          templates := bootStorage.templates ++ [(1, rootTemplate)] } : Storage).templates := by
  have h : bootStorage.persist rootTemplateStatement =
      .ok (⟨1, rootTemplateStatement, false⟩,
        { bootStorage with
          templates := bootStorage.templates ++ [(1, rootTemplate)] }) := by
    decide
  have hc := claim_C8_amended bootStorage rootTemplateStatement _ _ h
  exact ⟨hc.1, hc.2 rootTemplate rfl rfl⟩

/-! ## Claim C3 — persist idempotence (the entity_4 bind slip) -/

/-- A template admitting four-entity `quad` statements. -/
def quadTemplate : Template :=
  ⟨str "quad", [[.Domain], [.Domain], [.Domain], [.Domain]]⟩

/-- A storage whose cache holds the `quad` template. -/
def quadStorage : Storage where
  statements := []
  opinions := []
  templates := [(1, quadTemplate)]
  signers := []
  nextStatementId := 2
  nextOpinionId := 1

/-- A four-entity statement whose third and fourth entities differ. -/
def quadStatement : Statement :=
  ⟨str "quad", [.Domain (str "a.com"), .Domain (str "b.com"),
                .Domain (str "c.com"), .Domain (str "d.com")]⟩

/-- Claim C3 fails on the code: the first `persist` of the four-entity
statement inserts it, but the second call panics — `try_select_statement`
binds the entity_3 text where the SQL expects entity_4, so the select
misses the stored row, the insert collides with the unique constraint,
the retried select misses again, and the code reaches
`panic!("could not insert statement")`. -/
theorem claim_C3_code_bug :
    ((quadStorage.persist quadStatement).toOption.map
      (fun p => (p.1.inserted, p.2.persist quadStatement))) =
    some (true, .error (.panic (str "could not insert statement"))) := by
  decide

/-! ## Claim C6 — opinion overwrite monotonicity -/

theorem cacheTemplates_other {stmt : Statement} {e0 : Entity} {id : Int}
    {st2 : Storage} (h : stmt.name ≠ str "template") :
    cacheTemplates stmt e0 id st2 = st2 := by
  unfold cacheTemplates
  rw [if_neg (by simpa using h)]

/-- A `persist` whose select hits returns the found id and, for a
statement not named `template`, leaves the storage unchanged. -/
theorem persist_select_hit {st : Storage} {stmt : Statement} {e0 : Entity}
    {rest : List Entity} {sigId : Int}
    (hname : stmt.name ≠ str "template")
    (hent : stmt.entities = e0 :: rest)
    (htempl : st.has_matching_template stmt = true)
    (hsel : st.try_select_statement stmt.name e0.render
      ((stmt.entities.get? 1).map Entity.render)
      ((stmt.entities.get? 2).map Entity.render)
      ((stmt.entities.get? 3).map Entity.render) = some sigId) :
    st.persist stmt = .ok (⟨sigId, stmt, false⟩, st) := by
  unfold Storage.persist
  rw [if_neg (by simp [htempl])]
  rw [hent]
  dsimp only
  rw [hent] at hsel
  rw [hsel]
  dsimp only
  rw [cacheTemplates_other hname]

/-- The signer statement of a key. -/
def signerStatement (pk : PublicKey) : Statement :=
  Statement.signer (.Signer pk)

theorem signerStatement_name (pk : PublicKey) :
    (signerStatement pk).name ≠ str "template" := by
  show str "signer" ≠ str "template"
  decide

/-- Persisting a signer statement under a matching template always
succeeds, touches neither opinions nor caches, and leaves the signer row
findable under its id. -/
theorem persist_signer_core (st : Storage) (pk : PublicKey)
    (htempl : st.has_matching_template (signerStatement pk) = true) :
    ∃ sigId b st1,
      st.persist (signerStatement pk) = .ok (⟨sigId, signerStatement pk, b⟩, st1) ∧
      st1.opinions = st.opinions ∧
      st1.nextOpinionId = st.nextOpinionId ∧
      st1.templates = st.templates ∧
      st1.try_select_statement (str "signer") (Entity.Signer pk).render
        none none none = some sigId := by
  have hent : (signerStatement pk).entities = [Entity.Signer pk] := rfl
  have hname := signerStatement_name pk
  unfold Storage.persist
  rw [if_neg (by simp [htempl]), hent]
  dsimp only
  cases hsel : st.try_select_statement (str "signer") (Entity.Signer pk).render
      none none none with
  | some id =>
    refine ⟨id, false, st, ?_, rfl, rfl, rfl, hsel⟩
    have hsel2 : st.try_select_statement (signerStatement pk).name
        (Entity.Signer pk).render
        (Option.map Entity.render ([Entity.Signer pk].get? 1))
        (Option.map Entity.render ([Entity.Signer pk].get? 2))
        (Option.map Entity.render ([Entity.Signer pk].get? 3)) = some id := hsel
    rw [hsel2]
    dsimp only
    rw [cacheTemplates_other hname]
  | none =>
    have hconf : uniqueConflict st (signerStatement pk).name
        (Entity.Signer pk).render none none none = false := by
      unfold uniqueConflict
      rw [List.any_eq_false]
      intro r hr
      simp [colConflict]
    have hins : st.try_insert_statement (signerStatement pk)
        ((Entity.Signer pk).cidr_minmax).1 ((Entity.Signer pk).cidr_minmax).2 =
        some (st.nextStatementId,
          { st with
            statements := st.statements ++
              [⟨st.nextStatementId, signerStatement pk |>.name,
                [Entity.Signer pk], ((Entity.Signer pk).cidr_minmax).1,
                ((Entity.Signer pk).cidr_minmax).2⟩],
            nextStatementId := st.nextStatementId + 1 }) := by
      unfold Storage.try_insert_statement
      rw [hent]
      dsimp only
      rw [if_neg (by simp [hconf])]
      rfl
    have hsel2 : st.try_select_statement (signerStatement pk).name
        (Entity.Signer pk).render
        (Option.map Entity.render ([Entity.Signer pk].get? 1))
        (Option.map Entity.render ([Entity.Signer pk].get? 2))
        (Option.map Entity.render ([Entity.Signer pk].get? 3)) = none := hsel
    rw [hsel2]
    dsimp only
    rw [hins]
    dsimp only
    rw [cacheTemplates_other hname]
    refine ⟨st.nextStatementId, true, _, rfl, rfl, rfl, rfl, ?_⟩
    unfold Storage.try_select_statement at hsel ⊢
    have hfind : st.statements.find? (fun r => rowMatchesSelect r (str "signer")
        (Entity.Signer pk).render none none none) = none := by
      cases hx : st.statements.find? (fun r => rowMatchesSelect r (str "signer")
          (Entity.Signer pk).render none none none) with
      | none => rfl
      | some r => rw [hx] at hsel; simp at hsel
    have hrow : rowMatchesSelect
        ⟨st.nextStatementId, (signerStatement pk).name, [Entity.Signer pk],
         ((Entity.Signer pk).cidr_minmax).1, ((Entity.Signer pk).cidr_minmax).2⟩
        (str "signer") (Entity.Signer pk).render none none none = true := by
      unfold rowMatchesSelect Row.entityCol
      simp [signerStatement, Statement.signer]
    have hfa : (st.statements ++
        [(⟨st.nextStatementId, (signerStatement pk).name, [Entity.Signer pk],
          ((Entity.Signer pk).cidr_minmax).1,
          ((Entity.Signer pk).cidr_minmax).2⟩ : Row)]).find?
        (fun r => rowMatchesSelect r (str "signer")
          (Entity.Signer pk).render none none none) =
        some ⟨st.nextStatementId, (signerStatement pk).name, [Entity.Signer pk],
          ((Entity.Signer pk).cidr_minmax).1,
          ((Entity.Signer pk).cidr_minmax).2⟩ := by
      rw [List.find?_append, hfind, Option.none_or]
      simp only [List.find?_cons, hrow]
    dsimp only
    rw [hfa]
    rfl

/-- The persisted fields of an opinion row versus a signed opinion. -/
def rowHasData (orow : OpinionRow) (so : SignedOpinion) : Prop :=
  orow.date = so.opinion.date ∧ orow.valid = so.opinion.valid ∧
  orow.serial = so.opinion.serial ∧ orow.certainty = so.opinion.certainty ∧
  orow.signature = base64Encode so.signature

/-- The incoming opinion strictly newer than the stored one, in the
code's `(date, serial)` lexicographic sense. -/
def opinionNewer (o1 o2 : SignedOpinion) : Prop :=
  o1.opinion.date < o2.opinion.date ∨
    (o1.opinion.date = o2.opinion.date ∧ o1.opinion.serial < o2.opinion.serial)

instance (o1 o2 : SignedOpinion) : Decidable (opinionNewer o1 o2) := by
  unfold opinionNewer; infer_instance

/-- Claim C6, confirmed: on a store where the signer's statement has a
matching cached template and the target statement has no opinion row
yet, `persist_opinion(o1, sid)` then `persist_opinion(o2, sid)` with the
same signer succeed; exactly one opinion row for `(sid, signer)`
remains; it stores `o2` with `inserted = true` iff `(o2.date, o2.serial)`
is lexicographically greater than `(o1.date, o1.serial)`, and otherwise
it stores `o1` and the second call returns the first call's id with
`inserted = false`. -/
theorem claim_C6 (st : Storage) (sid : Int) (o1 o2 : SignedOpinion)
    (hsig : o2.signer = o1.signer)
    (htempl : st.has_matching_template (signerStatement o1.signer) = true)
    (hfresh : ∀ orow ∈ st.opinions, orow.statement_id ≠ sid)
    (hids : ∀ orow ∈ st.opinions, orow.id < st.nextOpinionId) :
    ∃ sigId r1 st1 r2 st2,
      st.persist_opinion o1 sid = .ok (r1, st1) ∧
      st1.persist_opinion o2 sid = .ok (r2, st2) ∧
      r1.inserted = true ∧
      (st2.opinions.filter (fun o =>
        o.statement_id == sid && o.signer_id == sigId)).length = 1 ∧
      (∀ orow ∈ st2.opinions, orow.statement_id = sid → orow.signer_id = sigId) ∧
      (if opinionNewer o1 o2 then
        r2.inserted = true ∧
        ∀ orow ∈ st2.opinions, orow.statement_id = sid → rowHasData orow o2
      else
        r2.inserted = false ∧ r2.id = r1.id ∧
        ∀ orow ∈ st2.opinions, orow.statement_id = sid → rowHasData orow o1) := by
  obtain ⟨sigId, b, st1a, hper1, hop1, hnid1, htmp1, hsel1⟩ :=
    persist_signer_core st o1.signer htempl
  -- first call inserts a fresh row
  have hfind1 : st1a.opinions.find? (fun o =>
      o.statement_id == sid && o.signer_id == sigId) = none := by
    rw [hop1, List.find?_eq_none]
    intro o ho
    simp [hfresh o ho]
  have h1 : st.persist_opinion o1 sid =
      .ok (⟨st.nextOpinionId, o1, true⟩,
        { st1a with
          opinions := st1a.opinions ++
            [⟨st.nextOpinionId, sid, sigId, o1.opinion.date, o1.opinion.valid,
              o1.opinion.serial, o1.opinion.certainty, base64Encode o1.signature⟩],
          nextOpinionId := st.nextOpinionId + 1 }) := by
    unfold Storage.persist_opinion
    rw [show Statement.signer (.Signer o1.signer) = signerStatement o1.signer from rfl]
    rw [hper1]
    dsimp only
    rw [hfind1]
    dsimp only
    rw [hnid1]
  set row1 : OpinionRow :=
    ⟨st.nextOpinionId, sid, sigId, o1.opinion.date, o1.opinion.valid,
      o1.opinion.serial, o1.opinion.certainty, base64Encode o1.signature⟩ with hrow1
  set st1 : Storage :=
    { st1a with
      opinions := st1a.opinions ++ [row1],
      nextOpinionId := st.nextOpinionId + 1 } with hst1
  -- the second signer persist finds the same id
  have htempl1 : st1.has_matching_template (signerStatement o1.signer) = true := by
    unfold Storage.has_matching_template at htempl ⊢
    rw [show st1.templates = st.templates from htmp1]
    exact htempl
  have hsel1b : st1.try_select_statement (str "signer")
      (Entity.Signer o1.signer).render none none none = some sigId := hsel1
  have hper2 : st1.persist (signerStatement o1.signer) =
      .ok (⟨sigId, signerStatement o1.signer, false⟩, st1) :=
    persist_select_hit (signerStatement_name o1.signer) rfl htempl1 hsel1b
  have hfind2 : st1.opinions.find? (fun o =>
      o.statement_id == sid && o.signer_id == sigId) = some row1 := by
    show (st1a.opinions ++ [row1]).find? _ = some row1
    rw [List.find?_append, hfind1]
    simp [hrow1]
  by_cases hn : opinionNewer o1 o2
  · -- o2 wins: row1 deleted, o2 inserted
    have hdel : (st1.opinions.filter (fun o => o.id ≠ row1.id)) = st1a.opinions := by
      show ((st1a.opinions ++ [row1]).filter _) = st1a.opinions
      rw [List.filter_append]
      have h2 : ([row1].filter (fun o => decide (o.id ≠ row1.id))) = [] := by simp
      rw [h2, List.append_nil]
      apply List.filter_eq_self.mpr
      intro o ho
      rw [hop1] at ho
      have := hids o ho
      simp only [hrow1, decide_eq_true_eq]
      omega
    have h2 : st1.persist_opinion o2 sid =
        .ok (⟨st.nextOpinionId + 1, o2, true⟩,
          { st1 with
            opinions := st1a.opinions ++
              [⟨st.nextOpinionId + 1, sid, sigId, o2.opinion.date,
                o2.opinion.valid, o2.opinion.serial, o2.opinion.certainty,
                base64Encode o2.signature⟩],
            nextOpinionId := st.nextOpinionId + 1 + 1 }) := by
      unfold Storage.persist_opinion
      rw [show Statement.signer (.Signer o2.signer) = signerStatement o1.signer by
        rw [hsig]; rfl]
      rw [hper2]
      dsimp only
      rw [hfind2]
      dsimp only
      rw [if_pos (by
        have h := hn
        unfold opinionNewer at h
        exact h)]
      rw [hdel]
    set row2 : OpinionRow :=
      ⟨st.nextOpinionId + 1, sid, sigId, o2.opinion.date, o2.opinion.valid,
        o2.opinion.serial, o2.opinion.certainty, base64Encode o2.signature⟩ with hrow2
    refine ⟨sigId, _, _, _, _, h1, h2, rfl, ?_, ?_, ?_⟩
    · dsimp only
      rw [List.filter_append]
      rw [show (st1a.opinions.filter (fun o =>
          o.statement_id == sid && o.signer_id == sigId)) = [] by
        rw [List.filter_eq_nil]
        intro o ho
        rw [hop1] at ho
        simp [hfresh o ho]]
      simp [hrow2]
    · intro orow horow hsid
      dsimp only at horow
      rw [List.mem_append] at horow
      rcases horow with h | h
      · rw [hop1] at h
        exact absurd hsid (hfresh orow h)
      · simp only [List.mem_singleton] at h
        subst h
        rfl
    · rw [if_pos hn]
      refine ⟨rfl, ?_⟩
      intro orow horow hsid
      dsimp only at horow
      rw [List.mem_append] at horow
      rcases horow with h | h
      · rw [hop1] at h
        exact absurd hsid (hfresh orow h)
      · simp only [List.mem_singleton] at h
        subst h
        exact ⟨rfl, rfl, rfl, rfl, rfl⟩
  · -- o1 stays: the second call returns the existing row
    have h2 : st1.persist_opinion o2 sid = .ok (⟨row1.id, o2, false⟩, st1) := by
      unfold Storage.persist_opinion
      rw [show Statement.signer (.Signer o2.signer) = signerStatement o1.signer by
        rw [hsig]; rfl]
      rw [hper2]
      dsimp only
      rw [hfind2]
      dsimp only
      rw [if_neg (by
        intro hc
        apply hn
        unfold opinionNewer
        exact hc)]
    refine ⟨sigId, _, _, _, _, h1, h2, rfl, ?_, ?_, ?_⟩
    · show ((st1a.opinions ++ [row1]).filter _).length = 1
      rw [List.filter_append]
      rw [show (st1a.opinions.filter (fun o =>
          o.statement_id == sid && o.signer_id == sigId)) = [] by
        rw [List.filter_eq_nil]
        intro o ho
        rw [hop1] at ho
        simp [hfresh o ho]]
      simp [hrow1]
    · intro orow horow hsid
      show _ = sigId
      have : orow ∈ st1a.opinions ++ [row1] := horow
      rw [List.mem_append] at this
      rcases this with h | h
      · rw [hop1] at h
        exact absurd hsid (hfresh orow h)
      · simp only [List.mem_singleton] at h
        subst h
        rfl
    · rw [if_neg hn]
      refine ⟨rfl, rfl, ?_⟩
      intro orow horow hsid
      have : orow ∈ st1a.opinions ++ [row1] := horow
      rw [List.mem_append] at this
      rcases this with h | h
      · rw [hop1] at h
        exact absurd hsid (hfresh orow h)
      · simp only [List.mem_singleton] at h
        subst h
        exact ⟨rfl, rfl, rfl, rfl, rfl⟩

/-- Witness for claim C6: two concrete opinions by the same key on the
root statement of the freshly initialized store, the second newer. -/
theorem claim_C6_witness :
    ∃ sigId r1 st1 r2 st2,
      bootStorage.persist_opinion ⟨⟨100, 30, 0, 3, []⟩, pk0, [1]⟩ 1 =
        .ok (r1, st1) ∧
      st1.persist_opinion ⟨⟨101, 30, 0, 3, []⟩, pk0, [2]⟩ 1 = .ok (r2, st2) ∧
      r1.inserted = true ∧
      (st2.opinions.filter (fun o =>
        o.statement_id == 1 && o.signer_id == sigId)).length = 1 ∧
      (∀ orow ∈ st2.opinions, orow.statement_id = 1 → orow.signer_id = sigId) ∧
      (if opinionNewer ⟨⟨100, 30, 0, 3, []⟩, pk0, [1]⟩
          ⟨⟨101, 30, 0, 3, []⟩, pk0, [2]⟩ then
        r2.inserted = true ∧
        ∀ orow ∈ st2.opinions, orow.statement_id = 1 →
          rowHasData orow ⟨⟨101, 30, 0, 3, []⟩, pk0, [2]⟩
      else
        r2.inserted = false ∧ r2.id = r1.id ∧
        ∀ orow ∈ st2.opinions, orow.statement_id = 1 →
          rowHasData orow ⟨⟨100, 30, 0, 3, []⟩, pk0, [1]⟩) :=
  claim_C6 bootStorage 1 ⟨⟨100, 30, 0, 3, []⟩, pk0, [1]⟩
    ⟨⟨101, 30, 0, 3, []⟩, pk0, [2]⟩ (by decide) (by decide)
    (by intro o h; simp [bootStorage] at h)
    (by intro o h; simp [bootStorage] at h)

/-- Claim C1 as stated is false: the broadcast handler persists an
opinion whose signature does not verify against the statement's signable
bytes (the handler never calls `verify_signature`; the row lands in the
opinion table with the bogus signature). -/
theorem claim_C1_counterexample :
    SignedOpinion.verify_signature ⟨⟨100, 30, 0, 3, []⟩, pk0, [0]⟩
      rootTemplateStatement.signable_bytes = false ∧
    (handle_broadcast_statement bootStorage
        ⟨rootTemplateStatement, [⟨⟨100, 30, 0, 3, []⟩, pk0, [0]⟩]⟩).toOption.map
      (fun s => s.opinions.map (fun (o : OpinionRow) =>
        (o.statement_id, o.signature))) =
      some [(1, base64Encode [0])] := by decide

/-- Claim C1, amended: the broadcast handler persists every included
signed opinion that `persist_opinion` accepts, with no signature check:
whenever the statement persists and the opinion's signer statement has a
matching cached template and the pair is fresh, the handler records the
opinion row — regardless of the value of `verify_signature`. -/
theorem claim_C1_amended (st st1 : Storage) (stmt : Statement)
    (so : SignedOpinion) (pres : PResult Statement)
    (hper : st.persist stmt = .ok (pres, st1))
    (htempl : st1.has_matching_template (signerStatement so.signer) = true)
    (hfresh : ∀ orow ∈ st1.opinions, orow.statement_id ≠ pres.id) :
    ∃ st2, handle_broadcast_statement st ⟨stmt, [so]⟩ = .ok st2 ∧
      ∃ orow ∈ st2.opinions, orow.statement_id = pres.id ∧
        rowHasData orow so := by
  obtain ⟨sigId, b, st2a, hper2, hop, hnid, htmp, hsel⟩ :=
    persist_signer_core st1 so.signer htempl
  have hfind : st2a.opinions.find? (fun o =>
      o.statement_id == pres.id && o.signer_id == sigId) = none := by
    rw [hop, List.find?_eq_none]
    intro o ho
    simp [hfresh o ho]
  have hpo : st1.persist_opinion so pres.id =
      .ok (⟨st1.nextOpinionId, so, true⟩,
        { st2a with
          opinions := st2a.opinions ++
            [⟨st1.nextOpinionId, pres.id, sigId, so.opinion.date,
              so.opinion.valid, so.opinion.serial, so.opinion.certainty,
              base64Encode so.signature⟩],
          nextOpinionId := st1.nextOpinionId + 1 }) := by
    unfold Storage.persist_opinion
    rw [show Statement.signer (.Signer so.signer) =
      signerStatement so.signer from rfl]
    rw [hper2]
    dsimp only
    rw [hfind]
    dsimp only
    rw [hnid]
  refine ⟨{ st2a with
      opinions := st2a.opinions ++
        [⟨st1.nextOpinionId, pres.id, sigId, so.opinion.date,
          so.opinion.valid, so.opinion.serial, so.opinion.certainty,
          base64Encode so.signature⟩],
      nextOpinionId := st1.nextOpinionId + 1 }, ?_, ?_⟩
  · unfold handle_broadcast_statement
    dsimp only
    rw [hper]
    dsimp only
    rw [List.foldlM_cons, hpo]
    rfl
  · refine ⟨⟨st1.nextOpinionId, pres.id, sigId, so.opinion.date,
      so.opinion.valid, so.opinion.serial, so.opinion.certainty,
      base64Encode so.signature⟩, ?_, rfl, rfl, rfl, rfl, rfl, rfl⟩
    dsimp only
    exact List.mem_append_right _ (List.mem_singleton.mpr rfl)

/-- Witness for claim C1: on the freshly initialized store, a broadcast
of the root template statement carrying one opinion whose signature is
the bogus byte `0`. -/
theorem claim_C1_witness :
    ∃ st2, handle_broadcast_statement bootStorage
        ⟨rootTemplateStatement, [⟨⟨100, 30, 0, 3, []⟩, pk0, [0]⟩]⟩ =
        .ok st2 ∧
      ∃ orow ∈ st2.opinions, orow.statement_id = (1 : Int) ∧
        rowHasData orow ⟨⟨100, 30, 0, 3, []⟩, pk0, [0]⟩ :=
  claim_C1_amended bootStorage
    { bootStorage with templates := bootStorage.templates ++ [(1, rootTemplate)] }
    rootTemplateStatement ⟨⟨100, 30, 0, 3, []⟩, pk0, [0]⟩
    ⟨1, rootTemplateStatement, false⟩ (by decide) (by decide)
    (by intro o h; simp [bootStorage] at h)

/-! ## Claim C2: the milter lookup -/

/-- The host `192.0.2.5` as an entity. -/
def spamIp : Entity := .IPv4 ⟨192 * 16777216 + 2 * 256 + 5, 32⟩

/-- A store holding the single statement `spammer(192.0.2.5)`. -/
def spamStore : Storage where
  statements := [⟨1, str "spammer", [spamIp],
    (spamIp.cidr_minmax).1, (spamIp.cidr_minmax).2⟩]
  opinions := []
  templates := []
  signers := []
  nextStatementId := 2
  nextOpinionId := 1

/-- A rule matching the connect address against the `spammer` reputation. -/
def spamRule : Rule where
  priority := Option.none
  field := some (.Single (str "connect.client-addr"))
  list := some (.Reputation (str "spammer"))
  reject := some (str "spam")
  defer := Option.none
  hold := Option.none

/-- A config with the single rule above and no named lists. -/
def spamCfg : Config := ⟨Option.none, [(str "reputation", spamRule)], []⟩

/-- A DNS oracle: the empty path resolves to the value itself, any
non-empty path to nothing. -/
def dnsSelf : FieldValue → Str → List FieldValue :=
  fun v path => if path = [] then [v] else []

theorem sevMax_ge_left (a b : Severity) : a.level ≤ (a.max b).level := by
  unfold Severity.max
  split
  · assumption
  · exact Nat.le_refl _

theorem sevMax_ge_right (a b : Severity) : b.level ≤ (a.max b).level := by
  unfold Severity.max
  split
  · exact Nat.le_refl _
  · omega

theorem sevMax_le {a b : Severity} {k : Nat} (ha : a.level ≤ k)
    (hb : b.level ≤ k) : (a.max b).level ≤ k := by
  unfold Severity.max
  split <;> assumption

theorem sev_of_level_three {s : Severity} (h : s.level = 3) :
    s = Severity.reject := by
  cases s <;> simp [Severity.level] at h ⊢

theorem oldStep_sev_ge (loc : Location) (ent : Entity)
    (a : PolicyAccumulator) (s : Statement) :
    a.severity.level ≤ (oldLookupStep loc ent a s).severity.level := by
  unfold oldLookupStep
  split
  · exact sevMax_ge_left _ _
  · exact Nat.le_refl _

theorem oldFold_sev_ge_init (loc : Location) (ent : Entity)
    (l : List Statement) (a : PolicyAccumulator) :
    a.severity.level ≤
      (l.foldl (oldLookupStep loc ent) a).severity.level := by
  induction l generalizing a with
  | nil => exact Nat.le_refl _
  | cons s l ih =>
    exact Nat.le_trans (oldStep_sev_ge loc ent a s) (ih _)

theorem oldFold_sev_ge_mem (loc : Location) (ent : Entity)
    {l : List Statement} {s : Statement} (a : PolicyAccumulator)
    (hmem : s ∈ l)
    (hcond : loc = .ConnectName ∨ loc = .ConnectAddress ∨
      s.name ≠ str "dynamic") :
    s.severity.level ≤
      (l.foldl (oldLookupStep loc ent) a).severity.level := by
  induction l generalizing a with
  | nil => cases hmem
  | cons t l ih =>
    rcases List.mem_cons.mp hmem with h | h
    · subst h
      refine Nat.le_trans ?_ (oldFold_sev_ge_init loc ent l _)
      unfold oldLookupStep
      rw [if_pos hcond]
      exact sevMax_ge_right _ _
    · exact ih _ h

theorem oldFold_sev_le (loc : Location) (ent : Entity)
    {l : List Statement} {k : Nat} {a : PolicyAccumulator}
    (ha : a.severity.level ≤ k)
    (hl : ∀ s ∈ l, s.severity.level ≤ k) :
    (l.foldl (oldLookupStep loc ent) a).severity.level ≤ k := by
  induction l generalizing a with
  | nil => exact ha
  | cons s l ih =>
    refine ih ?_ (fun t ht => hl t (List.mem_cons_of_mem _ ht))
    unfold oldLookupStep
    split
    · exact sevMax_le ha (hl s (List.mem_cons_self _ _))
    · exact ha

theorem oldFold_matches (loc : Location) (ent : Entity)
    (l : List Statement) (a : PolicyAccumulator) :
    ∃ suf, (l.foldl (oldLookupStep loc ent) a).match_list =
        a.match_list ++ suf ∧
      ∀ m ∈ suf, m.location = loc ∧ m.entity = ent ∧ m.statement ∈ l := by
  induction l generalizing a with
  | nil => exact ⟨[], (List.append_nil _).symm, fun m hm => by cases hm⟩
  | cons s l ih =>
    obtain ⟨suf, heq, hprop⟩ := ih (oldLookupStep loc ent a s)
    by_cases hc : loc = .ConnectName ∨ loc = .ConnectAddress ∨
        s.name ≠ str "dynamic"
    · have hstep : (oldLookupStep loc ent a s).match_list =
          a.match_list ++ [⟨loc, [], ent, s⟩] := by
        unfold oldLookupStep
        rw [if_pos hc]
      refine ⟨⟨loc, [], ent, s⟩ :: suf, ?_, ?_⟩
      · show (List.foldl _ (oldLookupStep loc ent a s) l).match_list = _
        rw [heq, hstep, List.append_assoc]
        rfl
      · intro m hm
        rcases List.mem_cons.mp hm with h | h
        · subst h
          exact ⟨rfl, rfl, List.mem_cons_self _ _⟩
        · obtain ⟨h1, h2, h3⟩ := hprop m h
          exact ⟨h1, h2, List.mem_cons_of_mem _ h3⟩
    · have hstep : oldLookupStep loc ent a s = a := by
        unfold oldLookupStep
        rw [if_neg hc]
      refine ⟨suf, ?_, ?_⟩
      · show (List.foldl _ (oldLookupStep loc ent a s) l).match_list = _
        rw [heq, hstep]
      · intro m hm
        obtain ⟨h1, h2, h3⟩ := hprop m hm
        exact ⟨h1, h2, List.mem_cons_of_mem _ h3⟩

/-- Claim C2 as stated is false for the live `lookup`: on a store
holding `spammer(192.0.2.5)` and a rule matching the connect address
against the spammer reputation, the lookup finds the match — the
returned log names the rule with its Reject action — yet the
accumulator comes back unchanged: no match appended, severity still
`None` rather than `Reject` (`lookup` only prints its findings). -/
theorem claim_C2_counterexample :
    PolicyAccumulator.lookup spamCfg spamStore dnsSelf
      PolicyAccumulator.fresh .ConnectAddress (.Ipv4 (str "192.0.2.5")) =
      some (PolicyAccumulator.fresh,
        [(str "reputation",
          ⟨str "connect.client-addr", 5, .Reject (str "spam")⟩)]) ∧
    PolicyAccumulator.fresh.severity ≠ Severity.reject ∧
    PolicyAccumulator.fresh.match_list = [] := by decide

/-- Claim C2, amended: the live `lookup` never modifies the
accumulator — whatever it returns alongside the log equals the input
accumulator; the described accumulation lives only in the dead
`old_lookup`, which appends one `\x7blocation, entity, statement\x7d`
match per fetched statement (outside the `dynamic`-filter exception)
and raises the severity to the maximum; in particular after an
`old_lookup` at a CONNECT location that fetched a statement named
`spammer`, the severity is `Reject` provided nothing fetched exceeds
`Reject` (a `known` statement would rank higher). -/
theorem claim_C2_amended :
    (∀ cfg st dns acc loc v res,
      PolicyAccumulator.lookup cfg st dns acc loc v = some res →
        res.1 = acc) ∧
    (∀ st acc loc what entity pstmts acc',
      entityFromStr what = some entity →
      st.find_statements_about entity = some pstmts →
      PolicyAccumulator.old_lookup st acc loc what = some acc' →
      (∃ suf, acc'.match_list = acc.match_list ++ suf ∧
        ∀ m ∈ suf, m.location = loc ∧ m.entity = entity ∧
          m.statement ∈ pstmts.map Prod.snd) ∧
      ((loc = Location.ConnectName ∨ loc = Location.ConnectAddress) →
       acc.severity.level ≤ Severity.reject.level →
       (∀ p ∈ pstmts, (Prod.snd p).severity.level ≤ Severity.reject.level) →
       (∃ p ∈ pstmts, (Prod.snd p).name = str "spammer") →
       acc'.severity = Severity.reject)) := by
  constructor
  · intro cfg st dns acc loc v res h
    unfold PolicyAccumulator.lookup at h
    dsimp only at h
    split at h
    · cases h
      rfl
    · cases h
  · intro st acc loc what entity pstmts acc' hent hfsa hol
    unfold PolicyAccumulator.old_lookup at hol
    rw [hent] at hol
    dsimp only at hol
    rw [hfsa] at hol
    dsimp only at hol
    cases hol
    constructor
    · exact oldFold_matches loc entity (pstmts.map Prod.snd) acc
    · intro hloc hacc hall ⟨p, hp, hname⟩
      have hcond : loc = .ConnectName ∨ loc = .ConnectAddress ∨
          (Prod.snd p).name ≠ str "dynamic" := by
        rcases hloc with h | h
        · exact Or.inl h
        · exact Or.inr (Or.inl h)
      have hsev : (Prod.snd p).severity = Severity.reject := by
        unfold Statement.severity
        rw [if_pos hname]
      have hge := oldFold_sev_ge_mem loc entity acc
        (List.mem_map_of_mem Prod.snd hp) hcond
      rw [hsev] at hge
      have hle := oldFold_sev_le loc entity hacc
        (fun s hs => by
          obtain ⟨q, hq, hqs⟩ := List.mem_map.mp hs
          rw [← hqs]
          exact hall q hq)
      exact sev_of_level_three (Nat.le_antisymm hle hge)

/-- Witness for claim C2: the concrete spammer store and rule; the live
lookup hands back the fresh accumulator, while `old_lookup` at the
connect address reaches severity `Reject`. -/
theorem claim_C2_witness :
    ((PolicyAccumulator.fresh,
      [(str "reputation",
        (⟨str "connect.client-addr", 5, .Reject (str "spam")⟩ :
          MatchResult))]) :
      PolicyAccumulator × List (Str × MatchResult)).1 =
      PolicyAccumulator.fresh ∧
    (⟨[], [⟨.ConnectAddress, [], spamIp, ⟨str "spammer", [spamIp]⟩⟩],
      .reject⟩ : PolicyAccumulator).severity = Severity.reject :=
  ⟨claim_C2_amended.1 spamCfg spamStore dnsSelf PolicyAccumulator.fresh
      .ConnectAddress (.Ipv4 (str "192.0.2.5")) _ (by decide),
   (claim_C2_amended.2 spamStore PolicyAccumulator.fresh .ConnectAddress
      (str "192.0.2.5") spamIp [(1, ⟨str "spammer", [spamIp]⟩)]
      ⟨[], [⟨.ConnectAddress, [], spamIp, ⟨str "spammer", [spamIp]⟩⟩],
        .reject⟩
      (by decide) (by decide) (by decide)).2
    (by decide) (by decide) (by decide) (by decide)⟩

/-! ## Claim C7: the textual round trip -/

theorem digitChar_digit : ∀ m < 10, (Nat.digitChar m).isDigit = true := by
  decide

theorem digitVal_digitChar : ∀ m < 10, digitVal (Nat.digitChar m) = m := by
  decide

theorem digitsAux_digits {f n : Nat} :
    ∀ c ∈ digitsAux 10 f n, isDigitC c = true := by
  induction f generalizing n with
  | zero => intro c hc; cases n <;> simp [digitsAux] at hc
  | succ f ih =>
    intro c hc
    match n with
    | 0 => simp [digitsAux] at hc
    | n + 1 =>
      simp only [digitsAux, List.mem_append, List.mem_singleton] at hc
      rcases hc with h | h
      · exact ih c h
      · subst h
        have h10 : (n + 1) % 10 < 10 := Nat.mod_lt _ (by omega)
        simpa [isDigitC] using digitChar_digit _ h10

theorem decVal_append (l : Str) (c : Char) :
    decVal (l ++ [c]) = 10 * decVal l + digitVal c := by
  unfold decVal
  rw [List.foldl_append]
  rfl

theorem decVal_digitsAux : ∀ f n, n ≤ f → decVal (digitsAux 10 f n) = n := by
  intro f
  induction f with
  | zero =>
    intro n h
    have : n = 0 := by omega
    subst this
    rfl
  | succ f ih =>
    intro n h
    match n with
    | 0 => rfl
    | n + 1 =>
      show decVal (digitsAux 10 f ((n + 1) / 10) ++
        [Nat.digitChar ((n + 1) % 10)]) = n + 1
      rw [decVal_append, ih _ (by omega)]
      have h10 : (n + 1) % 10 < 10 := Nat.mod_lt _ (by omega)
      rw [digitVal_digitChar _ h10]
      omega

theorem decVal_natDec (n : Nat) : decVal (natDec n) = n := by
  unfold natDec
  split
  · next h => subst h; rfl
  · exact decVal_digitsAux n n (Nat.le_refl n)

theorem natDec_digits {n : Nat} : ∀ c ∈ natDec n, isDigitC c = true := by
  unfold natDec
  split
  · intro c hc
    simp only [List.mem_singleton] at hc
    subst hc
    decide
  · exact digitsAux_digits

theorem natDec_ne_nil (n : Nat) : natDec n ≠ [] := by
  unfold natDec
  split
  · simp
  · next h =>
    cases n with
    | zero => exact absurd rfl h
    | succ m => simp [digitsAux]

theorem natDec_head (n : Nat) :
    ∃ c t, natDec n = c :: t ∧ isDigitC c = true := by
  cases hd : natDec n with
  | nil => exact absurd hd (natDec_ne_nil n)
  | cons c t =>
    exact ⟨c, t, rfl, natDec_digits c (by rw [hd]; exact List.mem_cons_self _ _)⟩

theorem takeWhile_all {p : Char → Bool} {l : Str} (h : ∀ c ∈ l, p c = true) :
    l.takeWhile p = l := by
  induction l with
  | nil => rfl
  | cons a l ih =>
    simp only [List.takeWhile_cons, h a (List.mem_cons_self _ _), if_true]
    rw [ih (fun c hc => h c (List.mem_cons_of_mem _ hc))]

theorem dropWhile_all {p : Char → Bool} {l : Str} (h : ∀ c ∈ l, p c = true) :
    l.dropWhile p = [] := by
  induction l with
  | nil => rfl
  | cons a l ih =>
    simp only [List.dropWhile_cons, h a (List.mem_cons_self _ _), if_true]
    exact ih (fun c hc => h c (List.mem_cons_of_mem _ hc))

theorem tagP_sound {t : Str} : ∀ {s r : Str}, tagP t s = some r → s = t ++ r := by
  induction t with
  | nil =>
    intro s r h
    simp only [tagP, Option.some.injEq] at h
    simp [h]
  | cons a ts ih =>
    intro s r h
    match s with
    | [] => simp [tagP] at h
    | c :: cs =>
      simp only [tagP] at h
      split at h
      · next hc =>
        rw [hc, List.cons_append]
        exact congrArg (a :: ·) (ih h)
      · exact absurd h (by simp)

theorem tagP_self_append (t r : Str) : tagP t (t ++ r) = some r := by
  induction t with
  | nil => simp [tagP]
  | cons a ts ih => simp [tagP, ih]

theorem tagP_head_ne {t c : Char} {ts cs : Str} (h : c ≠ t) :
    tagP (t :: ts) (c :: cs) = none := by
  simp [tagP, h]

theorem takeWhile_head_nil {p : Char → Bool} {r : Str}
    (hr : ∀ c, r.head? = some c → p c = false) : r.takeWhile p = [] := by
  cases r with
  | nil => rfl
  | cons a l => exact takeWhile_nil_of_head rfl (hr a rfl)

theorem takeWhile1_all {p : Char → Bool} {s : Str} (hne : s ≠ [])
    (h : ∀ c ∈ s, p c = true) : takeWhile1 p s = some (s, []) := by
  unfold takeWhile1
  rw [takeWhile_all h, dropWhile_all h, if_neg (by simpa using hne)]

theorem takeWhile1_split {p : Char → Bool} {l r : Str} (hl : l ≠ [])
    (h : ∀ c ∈ l, p c = true)
    (hr : ∀ c, r.head? = some c → p c = false) :
    takeWhile1 p (l ++ r) = some (l, r) := by
  unfold takeWhile1
  rw [takeWhile_append_all h, dropWhile_append_all h, takeWhile_head_nil hr,
    List.append_nil]
  rw [if_neg (by simpa using hl)]
  cases r with
  | nil => rfl
  | cons a t =>
    rw [List.dropWhile_cons_of_neg]
    simp [hr a rfl]

theorem emailP_none_all {s : Str} (hne : s ≠ [])
    (h : ∀ c ∈ s, localpartChar c = true) : emailP s = none := by
  unfold emailP
  rw [takeWhile1_all hne h]

theorem hashValueP_cons {c : Char} {r : Str} (hc : c ≠ '#') :
    hashValueP (c :: r) = none := by
  unfold hashValueP
  split
  · next heq => exact absurd (List.head_eq_of_cons_eq heq.symm) hc.symm
  · rfl

theorem localpart_of_digit {c : Char} (h : isDigitC c = true) :
    localpartChar c = true := by
  unfold localpartChar
  unfold isDigitC at h
  simp [Char.isAlphanum, h]

theorem localpart_of_alnum {c : Char} (h : c.isAlphanum = true) :
    localpartChar c = true := by
  unfold localpartChar
  simp [h]

/-- Claim C7 as stated is false: concrete well-formed entities whose
rendered text does not parse back — a short URL (the domain alternative
eats the scheme and leaves `://…` unconsumed), the IPv6 loopback `::1`
and link-local `fe80::1` (the recognizer requires a leading hex run
before any colon), the domain `AS12.com` (the asn alternative eats
`AS12` and leaves `.com`), and an ed25519 signer (the signer parser
only accepts the `secp256k1:` tag). -/
theorem claim_C7_counterexample :
    entityFromStr ((Entity.Url (str "https://bit.ly/3fA9rE8")).render) =
      Option.none ∧
    entityFromStr ((Entity.IPv6 ⟨1, 128⟩).render) = Option.none ∧
    entityFromStr
      ((Entity.IPv6 ⟨0xfe800000000000000000000000000001, 128⟩).render) =
      Option.none ∧
    entityFromStr ((Entity.Domain (str "AS12.com")).render) = Option.none ∧
    entityFromStr
      ((Entity.Signer (.Ed25519 (List.replicate 32 7))).render) =
      Option.none := by decide

theorem digit_not_alpha {c : Char} (h : isDigitC c = true) :
    isAlphaC c = false := by
  unfold isDigitC at h
  unfold isAlphaC
  simp only [Char.isDigit] at h
  simp only [Char.isAlpha, Char.isUpper, Char.isLower]
  simp only [decide_eq_true_eq, Bool.and_eq_true, Bool.or_eq_false_iff,
    Bool.and_eq_false_iff, decide_eq_false_iff_not] at h ⊢
  obtain ⟨h1, h2⟩ := h
  have n1 : c.val.toNat ≥ 48 := h1
  have n2 : c.val.toNat ≤ 57 := h2
  constructor
  · left
    intro a1
    have m1 : c.val.toNat ≥ 65 := a1
    omega
  · left
    intro a1
    have m1 : c.val.toNat ≥ 97 := a1
    omega

theorem digit_not_nameTail {c : Char} (h : isDigitC c = true) :
    nameTail c = false := by
  unfold nameTail
  rw [show c.isAlpha = isAlphaC c from rfl, digit_not_alpha h]
  simp only [Bool.false_or, decide_eq_false_iff_not]
  intro hc
  rw [hc] at h
  exact absurd h (by decide)

theorem dropWhile_head_self {p : Char → Bool} {r : Str}
    (hr : ∀ c, r.head? = some c → p c = false) : r.dropWhile p = r := by
  cases r with
  | nil => rfl
  | cons a l =>
    rw [List.dropWhile_cons_of_neg]
    simp [hr a rfl]

theorem roundtrip_email {s : Str} (h : emailP s = some (s, [])) :
    entityFromStr (Entity.EMail s).render = some (.EMail s) := by
  show entityFromStr s = some (.EMail s)
  unfold entityFromStr entityP
  rw [h]

theorem localpart_of_b64 {c : Char} (h : b64Char c = true) :
    localpartChar c = true := by
  unfold b64Char at h
  unfold localpartChar
  rcases Bool.or_eq_true_iff.mp h with h1 | h1
  · rcases Bool.or_eq_true_iff.mp h1 with h2 | h2
    · rcases Bool.or_eq_true_iff.mp h2 with h3 | h3
      · simp [h3]
      · simp only [decide_eq_true_eq] at h3
        subst h3
        decide
    · simp only [decide_eq_true_eq] at h2
      subst h2
      decide
  · simp only [decide_eq_true_eq] at h1
    subst h1
    decide

theorem roundtrip_hash {tk : Str} (h : base64TokenP tk = some (tk, [])) :
    entityFromStr (Entity.HashValue tk).render = some (.HashValue tk) := by
  have hchars : ∀ c ∈ tk, localpartChar c = true := by
    unfold base64TokenP at h
    cases htw : takeWhile1 b64Char tk with
    | none => rw [htw] at h; exact absurd h (by simp)
    | some p =>
      obtain ⟨tkb, r⟩ := p
      rw [htw] at h
      obtain ⟨h1, _⟩ := Prod.mk.inj (Option.some.inj h)
      unfold takeWhile1 at htw
      split at htw
      · exact absurd htw (by simp)
      · obtain ⟨ht1, ht2⟩ := Prod.mk.inj (Option.some.inj htw)
        intro c hc
        rw [← h1] at hc
        rcases List.mem_append.mp hc with hm | hm
        · rw [← ht1] at hm
          exact localpart_of_b64 (List.mem_takeWhile_imp hm)
        · have := List.mem_takeWhile_imp hm
          simp only [decide_eq_true_eq] at this
          subst this
          decide
  have hne : tk ≠ [] := by
    intro he
    rw [he] at h
    exact absurd h (by decide)
  have hemtk : emailP tk = none := emailP_none_all hne hchars
  have hemail : emailP ('#' :: tk) = none := by
    apply emailP_none_all (by simp)
    intro c hc
    rcases List.mem_cons.mp hc with rfl | hc
    · decide
    · exact hchars c hc
  have hhv : hashValueP ('#' :: tk) = some ([], .HashValue tk) := by
    rw [show hashValueP ('#' :: tk) =
      (match emailP tk with
       | some (em, r2) => some (r2, Entity.hash_string em)
       | none =>
         match base64TokenP tk with
         | some (tk2, r2) => some (r2, Entity.HashValue tk2)
         | none => none) from rfl]
    rw [hemtk, h]
  show entityFromStr ('#' :: tk) = some (.HashValue tk)
  unfold entityFromStr entityP
  simp only [hemail, hhv]

theorem roundtrip_as {n : Nat} (h : n < 2 ^ 32) :
    entityFromStr (Entity.AS n).render = some (.AS n) := by
  have hdigits := @natDec_digits n
  obtain ⟨c0, t0, hnd, hc0⟩ := natDec_head n
  have hheadA : ∀ c, (natDec n).head? = some c → isAlphaC c = false := by
    intro c hc
    rw [hnd] at hc
    simp only [List.head?_cons, Option.some.injEq] at hc
    subst hc
    exact digit_not_alpha (by rw [hnd] at hdigits; exact hdigits c0 (by simp))
  have hheadT : ∀ c, (natDec n).head? = some c → nameTail c = false := by
    intro c hc
    rw [hnd] at hc
    simp only [List.head?_cons, Option.some.injEq] at hc
    subst hc
    exact digit_not_nameTail (by rw [hnd] at hdigits; exact hdigits c0 (by simp))
  have hemail : emailP ('A' :: 'S' :: natDec n) = none := by
    apply emailP_none_all (by simp)
    intro c hc
    rcases List.mem_cons.mp hc with rfl | hc
    · decide
    · rcases List.mem_cons.mp hc with rfl | hc
      · decide
      · exact localpart_of_digit (hdigits c hc)
  have hhash : hashValueP ('A' :: 'S' :: natDec n) = none :=
    hashValueP_cons (by decide)
  have hname : nameP ('A' :: 'S' :: natDec n) = some (['A', 'S'], natDec n) := by
    unfold nameP
    have htw : takeWhile1 isAlphaC ('A' :: 'S' :: natDec n) =
        some (['A', 'S'], natDec n) :=
      @takeWhile1_split isAlphaC ['A', 'S'] (natDec n) (by simp) (by decide)
        hheadA
    rw [htw]
    show some (['A', 'S'] ++ List.takeWhile nameTail (natDec n),
      List.dropWhile nameTail (natDec n)) = some (['A', 'S'], natDec n)
    rw [takeWhile_head_nil hheadT, dropWhile_head_self hheadT,
      List.append_nil]
  have htmpl : templateP ('A' :: 'S' :: natDec n) = none := by
    unfold templateP
    rw [hname, hnd]
    split
    · next heq =>
      obtain ⟨_, h2⟩ := Prod.mk.inj (Option.some.inj heq)
      have : c0 = '(' := List.head_eq_of_cons_eq h2
      rw [this] at hc0
      exact absurd hc0 (by decide)
    · rfl
  have hasn : asnP ('A' :: 'S' :: natDec n) = some ([], .AS n) := by
    rw [show asnP ('A' :: 'S' :: natDec n) =
      (match takeWhile1 isDigitC (natDec n) with
       | some (ds, r2) =>
         if decVal ds < 2 ^ 32 then some (r2, Entity.AS (decVal ds)) else none
       | none => none) from rfl]
    rw [takeWhile1_all (natDec_ne_nil n) hdigits]
    show (if decVal (natDec n) < 2 ^ 32 then
        some (([] : Str), Entity.AS (decVal (natDec n))) else none) =
      some ([], .AS n)
    rw [decVal_natDec, if_pos h]
  show entityFromStr ('A' :: 'S' :: natDec n) = some (.AS n)
  unfold entityFromStr entityP
  simp only [hemail, hhash, htmpl, hasn]

theorem labelP_chars {s con rest : Str} (h : labelP s = some (con, rest)) :
    ∀ c ∈ con, labelRun c = true := by
  match s with
  | [] => simp [labelP] at h
  | c0 :: cs =>
    by_cases hc : c0.isAlphanum
    · simp only [labelP, hc, if_true, Option.some.injEq, Prod.mk.injEq] at h
      obtain ⟨h1, _⟩ := h
      subst h1
      exact fun c hc2 => List.mem_takeWhile_imp hc2
    · simp [labelP, hc] at h

theorem manyLabelDotF_sound : ∀ (f : Nat) (s : Str),
    s = (manyLabelDotF f s).1 ++ (manyLabelDotF f s).2 ∧
    ∀ c ∈ (manyLabelDotF f s).1, labelRun c = true ∨ c = '.' := by
  intro f
  induction f with
  | zero => intro s; exact ⟨rfl, by simp [manyLabelDotF]⟩
  | succ f ih =>
    intro s
    simp only [manyLabelDotF]
    cases hl : labelP s with
    | none => exact ⟨rfl, by simp⟩
    | some p =>
      obtain ⟨con, rest⟩ := p
      obtain ⟨hs, _⟩ := labelP_sound hl
      have hcc := labelP_chars hl
      cases rest with
      | nil => exact ⟨rfl, by simp⟩
      | cons c rest2 =>
        by_cases hc : c = '.'
        · subst hc
          simp only [if_true]
          obtain ⟨ih1, ih2⟩ := ih rest2
          constructor
          · rw [hs]
            conv_lhs => rw [ih1]
            simp [List.append_assoc]
          · intro c2 hc2
            rcases List.mem_append.mp hc2 with hm | hm
            · exact Or.inl (hcc c2 hm)
            · rcases List.mem_cons.mp hm with rfl | hm
              · exact Or.inr rfl
              · exact ih2 c2 hm
        · simp only [hc, if_false]
          exact ⟨rfl, by simp⟩

theorem nameP_sound {s con rest : Str} (h : nameP s = some (con, rest)) :
    s = con ++ rest := by
  unfold nameP at h
  cases htw : takeWhile1 isAlphaC s with
  | none => rw [htw] at h; exact absurd h (by simp)
  | some p =>
    obtain ⟨a, r⟩ := p
    rw [htw] at h
    obtain ⟨h1, h2⟩ := Prod.mk.inj (Option.some.inj h)
    obtain ⟨hs, _⟩ := takeWhile1_sound htw
    subst h1
    subst h2
    rw [hs]
    conv_lhs => rw [← List.takeWhile_append_dropWhile (p := nameTail) (l := r)]
    simp [List.append_assoc]

theorem domainP_sound_chars {s con rest : Str}
    (h : domainP s = some (con, rest)) :
    s = con ++ rest ∧ con ≠ [] ∧
      ∀ c ∈ con, c.isAlphanum = true ∨ c = '-' ∨ c = '.' := by
  unfold domainP at h
  obtain ⟨hs0, hchars0⟩ := manyLabelDotF_sound s.length s
  have hs : s = (manyLabelDot s).1 ++ (manyLabelDot s).2 := hs0
  have hchars : ∀ c ∈ (manyLabelDot s).1, labelRun c = true ∨ c = '.' := hchars0
  cases hm : manyLabelDot s with
  | mk mcon mrest =>
    rw [hm] at h hs hchars
    simp only at hs hchars
    dsimp only at h
    cases htw : takeWhile1 isAlphaC mrest with
    | none =>
      rw [htw] at h
      exact absurd h (by simp)
    | some p =>
      obtain ⟨al, r2⟩ := p
      rw [htw] at h
      obtain ⟨h1, h2⟩ := Prod.mk.inj (Option.some.inj h)
      obtain ⟨hp2, hal⟩ := takeWhile1_sound htw
      subst h1
      subst h2
      refine ⟨?_, ?_, ?_⟩
      · conv_lhs => rw [hs, hp2]
        simp [List.append_assoc]
      · intro hx
        exact hal (List.append_eq_nil.mp hx).2
      · intro c hc
        rcases List.mem_append.mp hc with hm2 | hm2
        · rcases hchars c hm2 with h1 | h1
          · unfold labelRun at h1
            rcases Bool.or_eq_true_iff.mp h1 with h2 | h2
            · exact Or.inl h2
            · simp only [decide_eq_true_eq] at h2
              exact Or.inr (Or.inl h2)
          · exact Or.inr (Or.inr h1)
        · unfold takeWhile1 at htw
          split at htw
          · exact absurd htw (by simp)
          · obtain ⟨ht1, _⟩ := Prod.mk.inj (Option.some.inj htw)
            rw [← ht1] at hm2
            have := List.mem_takeWhile_imp hm2
            unfold isAlphaC at this
            exact Or.inl (by simp [Char.isAlphanum, this])

theorem roundtrip_domain {s : Str} (hd : domainP s = some (s, []))
    (ha : asnP s = none) :
    entityFromStr (Entity.Domain s).render = some (.Domain s) := by
  obtain ⟨_, hne, hchars⟩ := domainP_sound_chars hd
  have hlp : ∀ c ∈ s, localpartChar c = true := by
    intro c hc
    rcases hchars c hc with h1 | h1 | h1
    · exact localpart_of_alnum h1
    · subst h1; decide
    · subst h1; decide
  have hemail : emailP s = none := emailP_none_all hne hlp
  have hhash : hashValueP s = none := by
    cases s with
    | nil => exact absurd rfl hne
    | cons c t =>
      refine hashValueP_cons ?_
      intro hceq
      subst hceq
      rcases hchars '#' (List.mem_cons_self _ _) with h1 | h1 | h1 <;>
        exact absurd h1 (by decide)
  have htmpl : templateP s = none := by
    cases hn : nameP s with
    | none =>
      unfold templateP
      rw [hn]
    | some p =>
      obtain ⟨nm, rest⟩ := p
      have hsnd := nameP_sound hn
      cases rest with
      | nil =>
        unfold templateP
        rw [hn]
      | cons c r2 =>
        unfold templateP
        rw [hn]
        split
        · next heq =>
          obtain ⟨_, h2⟩ := Prod.mk.inj (Option.some.inj heq)
          have hcp : c = '(' := List.head_eq_of_cons_eq h2
          have hcm : c ∈ s := by
            rw [hsnd]
            exact List.mem_append_right _ (List.mem_cons_self _ _)
          rw [hcp] at hcm
          rcases hchars '(' hcm with h1 | h1 | h1 <;>
            exact absurd h1 (by decide)
        · rfl
  have hsig : signerP s = none := by
    cases htag : tagP (str "secp256k1:") s with
    | some r0 =>
      exfalso
      have hs2 := tagP_sound htag
      have hcm : (':' : Char) ∈ s := by
        rw [hs2]
        exact List.mem_append_left _ (by decide)
      rcases hchars ':' hcm with h1 | h1 | h1 <;> exact absurd h1 (by decide)
    | none =>
      unfold signerP
      rw [htag]
  show entityFromStr s = some (.Domain s)
  unfold entityFromStr entityP
  simp only [hemail, hhash, htmpl, ha, hsig, hd]

theorem entityTypeP_render (ty : EntityType) (rest : Str) :
    entityTypeP (ty.render ++ rest) = some (rest, ty) := by
  cases ty <;>
    simp [entityTypeP, entityTypeTags, tryTags, tagP, EntityType.render, str]

theorem intercalate_cons2 {α : Type} (s a b : List α) (l : List (List α)) :
    List.intercalate s (a :: b :: l) = a ++ s ++ List.intercalate s (b :: l) := by
  simp [List.intercalate, List.intersperse]

theorem intercalate_single {α : Type} (s a : List α) :
    List.intercalate s [a] = a := by
  simp [List.intercalate]

theorem dropWhile_head_false {p : Char → Bool} {l : Str} {c : Char} {t : Str}
    (h : l.dropWhile p = c :: t) : p c = false := by
  induction l with
  | nil => simp at h
  | cons a l ih =>
    rw [List.dropWhile_cons] at h
    split at h
    · exact ih h
    · next hp =>
      obtain ⟨h1, _⟩ := List.cons.inj h
      subst h1
      simpa using hp

theorem entityAltsP_render {alts : List EntityType} (hne : alts ≠ [])
    {rest : Str} (hr : rest.head? ≠ some '|') :
    entityAltsP (List.intercalate ['|'] (alts.map EntityType.render) ++ rest) =
      some (rest, alts) := by
  induction alts with
  | nil => exact absurd rfl hne
  | cons ty tl ih =>
    cases tl with
    | nil =>
      rw [List.map_cons, List.map_nil, intercalate_single]
      unfold entityAltsP
      rw [sepList_eq entityTypeP_consuming, entityTypeP_render]
      cases rest with
      | nil => rfl
      | cons c r2 =>
        have hc : c ≠ '|' := fun h => hr (by rw [h]; rfl)
        dsimp only
        rw [if_neg hc]
    | cons ty2 tl2 =>
      have htext : List.intercalate ['|']
          (List.map EntityType.render (ty :: ty2 :: tl2)) ++ rest =
          ty.render ++ ('|' :: (List.intercalate ['|']
            (List.map EntityType.render (ty2 :: tl2)) ++ rest)) := by
        rw [List.map_cons, List.map_cons, intercalate_cons2]
        simp [List.append_assoc]
      unfold entityAltsP
      rw [sepList_eq entityTypeP_consuming, htext, entityTypeP_render]
      dsimp only
      rw [if_pos rfl]
      have ih2 : sepList entityTypeP '|' (List.intercalate ['|']
          (List.map EntityType.render (ty2 :: tl2)) ++ rest) =
          some (rest, ty2 :: tl2) := ih (by simp)
      rw [ih2]

theorem entityTypesP_render {tss : List (List EntityType)} (hne : tss ≠ [])
    (hslots : ∀ alts ∈ tss, alts ≠ []) {rest : Str}
    (hrc : rest.head? ≠ some ',') (hrp : rest.head? ≠ some '|') :
    entityTypesP (List.intercalate [','] (tss.map (fun alts =>
        List.intercalate ['|'] (alts.map EntityType.render))) ++ rest) =
      some (rest, tss) := by
  induction tss with
  | nil => exact absurd rfl hne
  | cons slot tl ih =>
    cases tl with
    | nil =>
      rw [List.map_cons, List.map_nil, intercalate_single]
      unfold entityTypesP
      rw [sepList_eq entityAltsP_consuming,
        entityAltsP_render (hslots slot (List.mem_cons_self _ _)) hrp]
      cases rest with
      | nil => rfl
      | cons c r2 =>
        have hc : c ≠ ',' := fun h => hrc (by rw [h]; rfl)
        dsimp only
        rw [if_neg hc]
    | cons slot2 tl2 =>
      have htext : List.intercalate [','] (List.map (fun alts =>
          List.intercalate ['|'] (alts.map EntityType.render))
          (slot :: slot2 :: tl2)) ++ rest =
          List.intercalate ['|'] (slot.map EntityType.render) ++
          (',' :: (List.intercalate [','] (List.map (fun alts =>
            List.intercalate ['|'] (alts.map EntityType.render))
            (slot2 :: tl2)) ++ rest)) := by
        rw [List.map_cons, List.map_cons, intercalate_cons2]
        simp [List.append_assoc]
      unfold entityTypesP
      rw [sepList_eq entityAltsP_consuming, htext,
        entityAltsP_render (hslots slot (List.mem_cons_self _ _)) (by simp)]
      dsimp only
      rw [if_pos rfl]
      have ih2 : sepList entityAltsP ',' (List.intercalate [',']
          (List.map (fun alts => List.intercalate ['|']
            (alts.map EntityType.render)) (slot2 :: tl2)) ++ rest) =
          some (rest, slot2 :: tl2) :=
        ih (by simp) (fun a ha => hslots a (List.mem_cons_of_mem _ ha))
      rw [ih2]


theorem nameP_structure {nm : Str} (h : nameP nm = some (nm, [])) :
    ∃ a r0, nm = a ++ r0 ∧ a ≠ [] ∧ (∀ c ∈ a, isAlphaC c = true) ∧
      (∀ c ∈ r0, nameTail c = true) ∧
      (∀ c, r0.head? = some c → isAlphaC c = false) := by
  unfold nameP at h
  cases htw : takeWhile1 isAlphaC nm with
  | none => rw [htw] at h; exact absurd h (by simp)
  | some p =>
    obtain ⟨a, r0⟩ := p
    rw [htw] at h
    obtain ⟨h1, h2⟩ := Prod.mk.inj (Option.some.inj h)
    have hr0tail : ∀ c ∈ r0, nameTail c = true := by
      intro c hc
      have := List.dropWhile_eq_nil_iff.mp h2
      exact this c hc
    have ht : r0.takeWhile nameTail = r0 := takeWhile_all hr0tail
    rw [ht] at h1
    unfold takeWhile1 at htw
    split at htw
    · exact absurd htw (by simp)
    · next hemp =>
      obtain ⟨ha, hr0⟩ := Prod.mk.inj (Option.some.inj htw)
      refine ⟨a, r0, h1.symm, ?_, ?_, hr0tail, ?_⟩
      · intro hx
        rw [hx] at ha
        rw [ha] at hemp
        simp at hemp
      · intro c hc
        rw [← ha] at hc
        exact List.mem_takeWhile_imp hc
      · intro c hc
        cases hr0c : r0 with
        | nil => rw [hr0c] at hc; simp at hc
        | cons c1 t1 =>
          rw [hr0c] at hc
          simp only [List.head?_cons, Option.some.injEq] at hc
          subst hc
          exact dropWhile_head_false (hr0.trans hr0c)

theorem nameP_lift {nm : Str} (h : nameP nm = some (nm, [])) (r : Str) :
    nameP (nm ++ '(' :: r) = some (nm, '(' :: r) := by
  obtain ⟨a, r0, hnm, hane, haall, hr0tail, hr0head⟩ := nameP_structure h
  have htext : nm ++ '(' :: r = a ++ (r0 ++ '(' :: r) := by
    rw [hnm]
    simp [List.append_assoc]
  have htw2 : takeWhile1 isAlphaC (nm ++ '(' :: r) =
      some (a, r0 ++ '(' :: r) := by
    rw [htext]
    apply takeWhile1_split hane haall
    intro c hc
    cases hr0c : r0 with
    | nil =>
      rw [hr0c] at hc
      simp only [List.nil_append, List.head?_cons, Option.some.injEq] at hc
      subst hc
      decide
    | cons c1 t1 =>
      rw [hr0c] at hc
      simp only [List.cons_append, List.head?_cons, Option.some.injEq] at hc
      subst hc
      exact hr0head c1 (by rw [hr0c]; rfl)
  unfold nameP
  rw [htw2]
  dsimp only
  rw [takeWhile_append_all hr0tail, dropWhile_append_all hr0tail]
  rw [List.takeWhile_cons_of_neg (by decide), List.dropWhile_cons_of_neg (by decide)]
  rw [List.append_nil, ← hnm]

theorem roundtrip_template {t : Template}
    (hn : nameP t.name = some (t.name, []))
    (hts : t.entity_types ≠ [])
    (hslots : ∀ alts ∈ t.entity_types, alts ≠ []) :
    entityFromStr (Entity.Template t).render = some (.Template t) := by
  obtain ⟨a, r0, hnm, hane, haall, hr0tail, _⟩ := nameP_structure hn
  have hnamechars : ∀ c ∈ t.name, localpartChar c = true := by
    intro c hc
    rw [hnm] at hc
    rcases List.mem_append.mp hc with hm | hm
    · unfold localpartChar
      have := haall c hm
      unfold isAlphaC at this
      simp [Char.isAlphanum, this]
    · have := hr0tail c hm
      unfold nameTail at this
      rcases Bool.or_eq_true_iff.mp this with h1 | h1
      · unfold localpartChar
        simp [Char.isAlphanum, h1]
      · simp only [decide_eq_true_eq] at h1
        subst h1
        decide
  have hnne : t.name ≠ [] := by
    rw [hnm]
    intro hx
    exact hane (List.append_eq_nil.mp hx).1
  have hrender : (Entity.Template t).render =
      t.name ++ '(' :: (List.intercalate [','] (t.entity_types.map
        (fun alts => List.intercalate ['|'] (alts.map EntityType.render))) ++
        [')']) := by
    show Template.render t = _
    unfold Template.render
    simp [List.append_assoc]
  have hemail : emailP (t.name ++ '(' :: (List.intercalate [',']
      (t.entity_types.map (fun alts => List.intercalate ['|']
        (alts.map EntityType.render))) ++ [')'])) = none := by
    unfold emailP
    rw [takeWhile1_split hnne hnamechars (fun c hc => by
      simp only [List.head?_cons, Option.some.injEq] at hc
      subst hc
      decide)]
    rfl
  have hhash : hashValueP (t.name ++ '(' :: (List.intercalate [',']
      (t.entity_types.map (fun alts => List.intercalate ['|']
        (alts.map EntityType.render))) ++ [')'])) = none := by
    cases hnmc : t.name with
    | nil => exact absurd hnmc hnne
    | cons c0 t0 =>
      rw [show (c0 :: t0) ++ '(' :: (List.intercalate [',']
        (t.entity_types.map (fun alts => List.intercalate ['|']
          (alts.map EntityType.render))) ++ [')']) =
        c0 :: (t0 ++ '(' :: (List.intercalate [',']
        (t.entity_types.map (fun alts => List.intercalate ['|']
          (alts.map EntityType.render))) ++ [')'])) from rfl]
      apply hashValueP_cons
      intro hx
      subst hx
      have hc0 : isAlphaC '#' = true := by
        have hm : ('#' : Char) ∈ t.name := by
          rw [hnmc]
          exact List.mem_cons_self _ _
        rw [hnm] at hm
        rcases List.mem_append.mp hm with hm2 | hm2
        · exact haall _ hm2
        · have := hr0tail _ hm2
          unfold nameTail at this
          rcases Bool.or_eq_true_iff.mp this with h1 | h1
          · exact h1
          · simp at h1
      exact absurd hc0 (by decide)
  have htmP : templateP (t.name ++ '(' :: (List.intercalate [',']
      (t.entity_types.map (fun alts => List.intercalate ['|']
        (alts.map EntityType.render))) ++ [')'])) =
      some ([], .Template ⟨t.name, t.entity_types⟩) := by
    unfold templateP
    rw [nameP_lift hn]
    show (match entityTypesP (List.intercalate [','] (t.entity_types.map
        (fun alts => List.intercalate ['|'] (alts.map EntityType.render))) ++
        [')']) with
      | some (')' :: r4, tss) => some (r4, Entity.Template ⟨t.name, tss⟩)
      | _ => none) = some ([], .Template ⟨t.name, t.entity_types⟩)
    rw [entityTypesP_render hts hslots (by decide) (by decide)]
    rfl
  rw [hrender]
  unfold entityFromStr entityP
  simp only [hemail, hhash, htmP]

set_option maxRecDepth 4096 in
theorem okOctet_natDec : ∀ m < 256, okOctet (natDec m) = true := by decide

theorem alnum_of_digit {c : Char} (h : isDigitC c = true) :
    c.isAlphanum = true := by
  unfold isDigitC at h
  simp [Char.isAlphanum, h]

theorem labelRun_of_digit {c : Char} (h : isDigitC c = true) :
    labelRun c = true := by
  unfold labelRun
  simp [alnum_of_digit h]

theorem takeWhile1_none_head {p : Char → Bool} {s : Str}
    (h : ∀ c, s.head? = some c → p c = false) : takeWhile1 p s = none := by
  unfold takeWhile1
  rw [takeWhile_head_nil h]
  rfl

theorem nameP_none {s : Str}
    (h : ∀ c, s.head? = some c → isAlphaC c = false) : nameP s = none := by
  unfold nameP
  rw [takeWhile1_none_head h]

theorem templateP_none_of_nameP {s : Str} (h : nameP s = none) :
    templateP s = none := by
  unfold templateP
  rw [h]

theorem asnP_cons_ne {c : Char} {r : Str} (h : c ≠ 'A') :
    asnP (c :: r) = none := by
  unfold asnP
  split
  · next heq => exact absurd (List.head_eq_of_cons_eq heq) h
  · rfl

theorem labelP_run {m : Nat} {tail : Str}
    (htail : ∀ c, tail.head? = some c → labelRun c = false) :
    labelP (natDec m ++ tail) = some (natDec m, tail) := by
  obtain ⟨c0, t0, hnd, hc0⟩ := natDec_head m
  have hdig := @natDec_digits m
  rw [show natDec m ++ tail = c0 :: (t0 ++ tail) from by rw [hnd]; rfl]
  unfold labelP
  dsimp only
  rw [if_pos (alnum_of_digit hc0)]
  rw [show c0 :: (t0 ++ tail) = natDec m ++ tail from by rw [hnd]; rfl]
  rw [takeWhile_append_all (fun c hc => labelRun_of_digit (hdig c hc))]
  rw [dropWhile_append_all (fun c hc => labelRun_of_digit (hdig c hc))]
  rw [takeWhile_head_nil htail, List.append_nil, dropWhile_head_self htail]

theorem manyLabelDot_stop {m : Nat} {tail : Str}
    (htail : ∀ c, tail.head? = some c → labelRun c = false ∧ c ≠ '.') :
    manyLabelDot (natDec m ++ tail) = ([], natDec m ++ tail) := by
  rw [manyLabelDot_eq]
  rw [labelP_run (fun c hc => (htail c hc).1)]
  cases tail with
  | nil => rfl
  | cons c t2 =>
    have hc := (htail c rfl).2
    dsimp only
    rw [if_neg hc]

theorem manyLabelDot_step {m : Nat} {R : Str} :
    manyLabelDot (natDec m ++ '.' :: R) =
      (natDec m ++ '.' :: (manyLabelDot R).1, (manyLabelDot R).2) := by
  rw [manyLabelDot_eq]
  rw [labelP_run (fun c hc => by
    simp only [List.head?_cons, Option.some.injEq] at hc
    subst hc
    decide)]
  dsimp only
  rw [if_pos rfl]

theorem hdot_digit : ∀ (R : Str) (c : Char), ('.' :: R).head? = some c →
    isDigitC c = false := by
  intro R c hc
  simp only [List.head?_cons, Option.some.injEq] at hc
  subst hc
  decide

theorem ipv4Tail_host {a : Nat} (ha : a < 2 ^ 32) :
    ipv4Tail (natDec (a / 2 ^ 24 % 256)) (natDec (a / 2 ^ 16 % 256))
      (natDec (a / 2 ^ 8 % 256)) (natDec (a % 256)) [] =
      some ([], .IPv4 ⟨a, 32⟩) := by
  show (match ipv4FromParts (natDec (a / 2 ^ 24 % 256))
      (natDec (a / 2 ^ 16 % 256)) (natDec (a / 2 ^ 8 % 256))
      (natDec (a % 256)) none with
    | some c => some (([] : Str), Entity.IPv4 c)
    | none => none) = some ([], .IPv4 ⟨a, 32⟩)
  unfold ipv4FromParts
  rw [if_pos (by
    rw [okOctet_natDec _ (Nat.mod_lt _ (by omega)),
      okOctet_natDec _ (Nat.mod_lt _ (by omega)),
      okOctet_natDec _ (Nat.mod_lt _ (by omega)),
      okOctet_natDec _ (Nat.mod_lt _ (by omega))]
    rfl)]
  dsimp only
  rw [decVal_natDec, decVal_natDec, decVal_natDec, decVal_natDec]
  rw [show ((a / 2 ^ 24 % 256 * 256 + a / 2 ^ 16 % 256) * 256 +
    a / 2 ^ 8 % 256) * 256 + a % 256 = a from by omega]


theorem ipv4Tail_len {a len : Nat} (ha : a < 2 ^ 32) (hl : len < 32)
    (hmod : a % 2 ^ (32 - len) = 0) :
    ipv4Tail (natDec (a / 2 ^ 24 % 256)) (natDec (a / 2 ^ 16 % 256))
      (natDec (a / 2 ^ 8 % 256)) (natDec (a % 256)) ('/' :: natDec len) =
      some ([], .IPv4 ⟨a, len⟩) := by
  show (match takeWhile1 isDigitC (natDec len) with
    | some (dl, r5) =>
      match ipv4FromParts (natDec (a / 2 ^ 24 % 256)) (natDec (a / 2 ^ 16 % 256))
        (natDec (a / 2 ^ 8 % 256)) (natDec (a % 256)) (some dl) with
      | some c => some (r5, Entity.IPv4 c)
      | none => none
    | none =>
      match ipv4FromParts (natDec (a / 2 ^ 24 % 256)) (natDec (a / 2 ^ 16 % 256))
        (natDec (a / 2 ^ 8 % 256)) (natDec (a % 256)) none with
      | some c => some ('/' :: natDec len, Entity.IPv4 c)
      | none => none) = some ([], .IPv4 ⟨a, len⟩)
  rw [takeWhile1_all (natDec_ne_nil len) natDec_digits]
  dsimp only
  unfold ipv4FromParts
  rw [if_pos (by
    rw [okOctet_natDec _ (Nat.mod_lt _ (by omega)),
      okOctet_natDec _ (Nat.mod_lt _ (by omega)),
      okOctet_natDec _ (Nat.mod_lt _ (by omega)),
      okOctet_natDec _ (Nat.mod_lt _ (by omega))]
    rfl)]
  dsimp only
  rw [decVal_natDec, decVal_natDec, decVal_natDec, decVal_natDec, decVal_natDec]
  rw [show ((a / 2 ^ 24 % 256 * 256 + a / 2 ^ 16 % 256) * 256 +
    a / 2 ^ 8 % 256) * 256 + a % 256 = a from by omega]
  rw [if_pos (by
    simp only [Bool.and_eq_true, decide_eq_true_eq]
    exact ⟨⟨by omega, by omega⟩, hmod⟩)]

theorem takeWhile1_natDec_tail {m : Nat} {tail : Str}
    (htail : ∀ c, tail.head? = some c → isDigitC c = false) :
    takeWhile1 isDigitC (natDec m ++ tail) = some (natDec m, tail) := by
  unfold takeWhile1
  rw [takeWhile_append_all natDec_digits, dropWhile_append_all natDec_digits]
  rw [takeWhile_head_nil htail, List.append_nil, dropWhile_head_self htail]
  rw [if_neg (by simpa using natDec_ne_nil m)]

theorem ipv4L2_eq {d1 : Str} {m : Nat} {R : Str} :
    ipv4L2 d1 (natDec m ++ '.' :: R) = ipv4L3 d1 (natDec m) R := by
  unfold ipv4L2
  rw [takeWhile1_natDec_tail (hdot_digit R)]
  rfl

theorem ipv4L3_eq {d1 d2 : Str} {m : Nat} {R : Str} :
    ipv4L3 d1 d2 (natDec m ++ '.' :: R) = ipv4L4 d1 d2 (natDec m) R := by
  unfold ipv4L3
  rw [takeWhile1_natDec_tail (hdot_digit R)]
  rfl

theorem ipv4L4_eq {d1 d2 d3 : Str} {m : Nat} {tail : Str}
    (htail : ∀ c, tail.head? = some c → isDigitC c = false) :
    ipv4L4 d1 d2 d3 (natDec m ++ tail) = ipv4Tail d1 d2 d3 (natDec m) tail := by
  unfold ipv4L4
  rw [takeWhile1_natDec_tail htail]

theorem signerP_cons_ne {c : Char} {r : Str} (h : c ≠ 's') :
    signerP (c :: r) = none := by
  unfold signerP
  rw [show str "secp256k1:" = 's' :: str "ecp256k1:" from rfl, tagP_head_ne h]

theorem urlP_cons_ne {c : Char} {r : Str} (h : c ≠ 'h') :
    urlP (c :: r) = none := by
  unfold urlP
  rw [show str "https" = 'h' :: str "ttps" from rfl, tagP_head_ne h]
  rw [show str "http" = 'h' :: str "ttp" from rfl, tagP_head_ne h]

theorem domainP_quad_none {o1 o2 o3 o4 : Nat} {tail : Str}
    (htail : ∀ c, tail.head? = some c → labelRun c = false ∧ c ≠ '.') :
    domainP (natDec o1 ++ '.' :: (natDec o2 ++ '.' :: (natDec o3 ++ '.' ::
      (natDec o4 ++ tail)))) = none := by
  unfold domainP
  rw [manyLabelDot_step, manyLabelDot_step, manyLabelDot_step,
    manyLabelDot_stop htail]
  dsimp only
  rw [takeWhile1_none_head (fun c hc => by
    obtain ⟨c0, t0, hnd, hc0⟩ := natDec_head o4
    rw [show natDec o4 ++ tail = c0 :: (t0 ++ tail) from by rw [hnd]; rfl] at hc
    simp only [List.head?_cons, Option.some.injEq] at hc
    subst hc
    exact digit_not_alpha hc0)]

theorem quad_chars {o1 o2 o3 o4 : Nat} {tail : Str}
    (htail : ∀ c ∈ tail, localpartChar c = true) :
    ∀ c ∈ natDec o1 ++ '.' :: (natDec o2 ++ '.' :: (natDec o3 ++ '.' ::
      (natDec o4 ++ tail))), localpartChar c = true := by
  intro c hc
  rcases List.mem_append.mp hc with h | h
  · exact localpart_of_digit (natDec_digits c h)
  · rcases List.mem_cons.mp h with rfl | h
    · decide
    · rcases List.mem_append.mp h with h | h
      · exact localpart_of_digit (natDec_digits c h)
      · rcases List.mem_cons.mp h with rfl | h
        · decide
        · rcases List.mem_append.mp h with h | h
          · exact localpart_of_digit (natDec_digits c h)
          · rcases List.mem_cons.mp h with rfl | h
            · decide
            · rcases List.mem_append.mp h with h | h
              · exact localpart_of_digit (natDec_digits c h)
              · exact htail c h

theorem entityP_quad {o1 o2 o3 o4 : Nat} {tail : Str}
    (htail_lp : ∀ c ∈ tail, localpartChar c = true)
    (htail_lr : ∀ c, tail.head? = some c → labelRun c = false ∧ c ≠ '.')
    (htail_dig : ∀ c, tail.head? = some c → isDigitC c = false)
    {pr : Str × Entity}
    (hres : ipv4Tail (natDec o1) (natDec o2) (natDec o3) (natDec o4) tail =
      some pr) :
    entityP (natDec o1 ++ '.' :: (natDec o2 ++ '.' :: (natDec o3 ++ '.' ::
      (natDec o4 ++ tail)))) = some pr := by
  obtain ⟨c0, t0, hnd, hc0⟩ := natDec_head o1
  have hexp : natDec o1 ++ '.' :: (natDec o2 ++ '.' :: (natDec o3 ++ '.' ::
      (natDec o4 ++ tail))) = c0 :: (t0 ++ '.' :: (natDec o2 ++ '.' ::
      (natDec o3 ++ '.' :: (natDec o4 ++ tail)))) := by
    rw [hnd]
    rfl
  have hemail : emailP (natDec o1 ++ '.' :: (natDec o2 ++ '.' ::
      (natDec o3 ++ '.' :: (natDec o4 ++ tail)))) = none := by
    apply emailP_none_all (by rw [hexp]; simp)
    exact quad_chars htail_lp
  have hhash : hashValueP (natDec o1 ++ '.' :: (natDec o2 ++ '.' ::
      (natDec o3 ++ '.' :: (natDec o4 ++ tail)))) = none := by
    rw [hexp]
    exact hashValueP_cons (fun h => by rw [h] at hc0; exact absurd hc0 (by decide))
  have htmpl : templateP (natDec o1 ++ '.' :: (natDec o2 ++ '.' ::
      (natDec o3 ++ '.' :: (natDec o4 ++ tail)))) = none := by
    apply templateP_none_of_nameP
    apply nameP_none
    intro c hc
    rw [hexp] at hc
    simp only [List.head?_cons, Option.some.injEq] at hc
    subst hc
    exact digit_not_alpha hc0
  have hasn : asnP (natDec o1 ++ '.' :: (natDec o2 ++ '.' ::
      (natDec o3 ++ '.' :: (natDec o4 ++ tail)))) = none := by
    rw [hexp]
    exact asnP_cons_ne (fun h => by rw [h] at hc0; exact absurd hc0 (by decide))
  have hsig : signerP (natDec o1 ++ '.' :: (natDec o2 ++ '.' ::
      (natDec o3 ++ '.' :: (natDec o4 ++ tail)))) = none := by
    rw [hexp]
    exact signerP_cons_ne (fun h => by rw [h] at hc0; exact absurd hc0 (by decide))
  have hdom : domainP (natDec o1 ++ '.' :: (natDec o2 ++ '.' ::
      (natDec o3 ++ '.' :: (natDec o4 ++ tail)))) = none :=
    domainP_quad_none htail_lr
  have hurl : urlP (natDec o1 ++ '.' :: (natDec o2 ++ '.' ::
      (natDec o3 ++ '.' :: (natDec o4 ++ tail)))) = none := by
    rw [hexp]
    exact urlP_cons_ne (fun h => by rw [h] at hc0; exact absurd hc0 (by decide))
  have hip : ipv4P (natDec o1 ++ '.' :: (natDec o2 ++ '.' ::
      (natDec o3 ++ '.' :: (natDec o4 ++ tail)))) = some pr := by
    unfold ipv4P
    rw [takeWhile1_natDec_tail (hdot_digit _)]
    show ipv4L2 (natDec o1) (natDec o2 ++ '.' :: (natDec o3 ++ '.' ::
      (natDec o4 ++ tail))) = some pr
    rw [ipv4L2_eq, ipv4L3_eq, ipv4L4_eq htail_dig, hres]
  unfold entityP
  simp only [hemail, hhash, htmpl, hasn, hsig, hdom, hurl, hip]

theorem roundtrip_ipv4 {c : Ipv4Cidr} (hw : c.wf) :
    entityFromStr (Entity.IPv4 c).render = some (.IPv4 c) := by
  obtain ⟨ha, hle, hmod⟩ := hw
  have hdq : dottedQuad c.addr = natDec (c.addr / 2 ^ 24 % 256) ++ '.' ::
      (natDec (c.addr / 2 ^ 16 % 256) ++ '.' ::
      (natDec (c.addr / 2 ^ 8 % 256) ++ '.' :: natDec (c.addr % 256))) := by
    unfold dottedQuad octets
    simp [List.intercalate, List.intersperse, List.append_assoc]
  by_cases h32 : c.len = 32
  · have hT : (Entity.IPv4 c).render = natDec (c.addr / 2 ^ 24 % 256) ++ '.' ::
        (natDec (c.addr / 2 ^ 16 % 256) ++ '.' ::
        (natDec (c.addr / 2 ^ 8 % 256) ++ '.' ::
        (natDec (c.addr % 256) ++ []))) := by
      show Ipv4Cidr.render c = _
      unfold Ipv4Cidr.render
      rw [if_pos h32, hdq, List.append_nil]
    have hres : ipv4Tail (natDec (c.addr / 2 ^ 24 % 256))
        (natDec (c.addr / 2 ^ 16 % 256)) (natDec (c.addr / 2 ^ 8 % 256))
        (natDec (c.addr % 256)) [] = some ([], .IPv4 c) := by
      rw [ipv4Tail_host ha]
      rw [show (⟨c.addr, 32⟩ : Ipv4Cidr) = c from by rw [← h32]]
    unfold entityFromStr
    rw [hT, entityP_quad (by simp) (by simp) (by simp) hres]
  · have hlt32 : c.len < 32 := by omega
    have hT : (Entity.IPv4 c).render = natDec (c.addr / 2 ^ 24 % 256) ++ '.' ::
        (natDec (c.addr / 2 ^ 16 % 256) ++ '.' ::
        (natDec (c.addr / 2 ^ 8 % 256) ++ '.' ::
        (natDec (c.addr % 256) ++ '/' :: natDec c.len))) := by
      show Ipv4Cidr.render c = _
      unfold Ipv4Cidr.render
      rw [if_neg h32, hdq]
      simp [List.append_assoc]
    have hres : ipv4Tail (natDec (c.addr / 2 ^ 24 % 256))
        (natDec (c.addr / 2 ^ 16 % 256)) (natDec (c.addr / 2 ^ 8 % 256))
        (natDec (c.addr % 256)) ('/' :: natDec c.len) =
        some ([], .IPv4 c) := by
      rw [ipv4Tail_len ha hlt32 hmod]
    unfold entityFromStr
    rw [hT, entityP_quad (by
        intro ch hch
        rcases List.mem_cons.mp hch with rfl | hch
        · decide
        · exact localpart_of_digit (natDec_digits ch hch))
      (by
        intro ch hch
        simp only [List.head?_cons, Option.some.injEq] at hch
        subst hch
        exact ⟨by decide, by decide⟩)
      (by
        intro ch hch
        simp only [List.head?_cons, Option.some.injEq] at hch
        subst hch
        decide) hres]
theorem sextetChar_b64 (n : Nat) : b64Char (sextetChar n) = true := by
  by_cases h : n < 64
  · have key : ∀ m < 64, b64Char (sextetChar m) = true := by decide
    exact key n h
  · unfold sextetChar
    rw [List.getD_eq_default]
    · decide
    · show 64 ≤ n
      omega

theorem sextetChar_ne_pad (n : Nat) : sextetChar n ≠ '=' := by
  by_cases h : n < 64
  · have key : ∀ m < 64, sextetChar m ≠ '=' := by decide
    exact key n h
  · unfold sextetChar
    rw [List.getD_eq_default]
    · decide
    · show 64 ≤ n
      omega

theorem charSextet_sextetChar : ∀ n < 64, charSextet (sextetChar n) = some n := by
  decide

theorem base64Encode_shape (bs : List Nat) :
    ∃ body pad, base64Encode bs = body ++ pad ∧
      (∀ c ∈ body, b64Char c = true) ∧ (∀ c ∈ pad, c = '=') ∧
      (bs ≠ [] → body ≠ []) := by
  have key : ∀ (n : Nat) (l : List Nat), l.length ≤ n →
      ∃ body pad, base64Encode l = body ++ pad ∧
        (∀ c ∈ body, b64Char c = true) ∧ (∀ c ∈ pad, c = '=') ∧
        (l ≠ [] → body ≠ []) := by
    intro n
    induction n with
    | zero =>
      intro l h
      match l with
      | [] => exact ⟨[], [], rfl, by simp, by simp, fun h2 => absurd rfl h2⟩
      | a :: t => simp at h
    | succ n ih =>
      intro l hlen
      match l with
      | [] => exact ⟨[], [], rfl, by simp, by simp, fun h2 => absurd rfl h2⟩
      | [b1] =>
        refine ⟨[sextetChar (b1 / 4), sextetChar (b1 % 4 * 16)], ['=', '='],
          rfl, ?_, ?_, fun _ => by simp⟩
        · intro c hc
          rcases List.mem_cons.mp hc with rfl | hc
          · exact sextetChar_b64 _
          · rcases List.mem_cons.mp hc with rfl | hc
            · exact sextetChar_b64 _
            · cases hc
        · intro c hc
          rcases List.mem_cons.mp hc with rfl | hc
          · rfl
          · rcases List.mem_cons.mp hc with rfl | hc
            · rfl
            · cases hc
      | [b1, b2] =>
        refine ⟨[sextetChar (b1 / 4), sextetChar (b1 % 4 * 16 + b2 / 16),
          sextetChar (b2 % 16 * 4)], ['='], rfl, ?_, ?_, fun _ => by simp⟩
        · intro c hc
          rcases List.mem_cons.mp hc with rfl | hc
          · exact sextetChar_b64 _
          · rcases List.mem_cons.mp hc with rfl | hc
            · exact sextetChar_b64 _
            · rcases List.mem_cons.mp hc with rfl | hc
              · exact sextetChar_b64 _
              · cases hc
        · intro c hc
          rcases List.mem_cons.mp hc with rfl | hc
          · rfl
          · cases hc
      | b1 :: b2 :: b3 :: rest =>
        obtain ⟨body, pad, heq, hbody, hpad, _⟩ :=
          ih rest (by simp only [List.length_cons] at hlen; omega)
        refine ⟨sextetChar (b1 / 4) :: sextetChar (b1 % 4 * 16 + b2 / 16) ::
          sextetChar (b2 % 16 * 4 + b3 / 64) :: sextetChar (b3 % 64) :: body,
          pad, ?_, ?_, hpad, fun _ => by simp⟩
        · show sextetChar (b1 / 4) :: sextetChar (b1 % 4 * 16 + b2 / 16) ::
            sextetChar (b2 % 16 * 4 + b3 / 64) :: sextetChar (b3 % 64) ::
            base64Encode rest = _
          rw [heq]
          simp [List.cons_append]
        · intro c hc
          rcases List.mem_cons.mp hc with rfl | hc
          · exact sextetChar_b64 _
          · rcases List.mem_cons.mp hc with rfl | hc
            · exact sextetChar_b64 _
            · rcases List.mem_cons.mp hc with rfl | hc
              · exact sextetChar_b64 _
              · rcases List.mem_cons.mp hc with rfl | hc
                · exact sextetChar_b64 _
                · exact hbody c hc
  exact key bs.length bs (Nat.le_refl _)

theorem base64Decode_encode (bs : List Nat) (hb : ∀ b ∈ bs, b < 256) :
    base64Decode (base64Encode bs) = some bs := by
  have key : ∀ (n : Nat) (l : List Nat), l.length ≤ n →
      (∀ b ∈ l, b < 256) → base64Decode (base64Encode l) = some l := by
    intro n
    induction n with
    | zero =>
      intro l h _
      match l with
      | [] => rfl
      | a :: t => simp at h
    | succ n ih =>
      intro l hlen hb2
      match l with
      | [] => rfl
      | [b1] =>
        have h1 : b1 < 256 := hb2 b1 (by simp)
        show base64Decode [sextetChar (b1 / 4), sextetChar (b1 % 4 * 16),
          '=', '='] = some [b1]
        unfold base64Decode
        rw [charSextet_sextetChar _ (by omega), charSextet_sextetChar _ (by omega)]
        dsimp only
        rw [if_pos rfl, if_pos ⟨rfl, rfl⟩]
        have harith : b1 / 4 * 4 + b1 % 4 * 16 / 16 = b1 := by omega
        rw [harith]
      | [b1, b2] =>
        have h1 : b1 < 256 := hb2 b1 (by simp)
        have h2 : b2 < 256 := hb2 b2 (by simp)
        show base64Decode [sextetChar (b1 / 4),
          sextetChar (b1 % 4 * 16 + b2 / 16), sextetChar (b2 % 16 * 4), '='] =
          some [b1, b2]
        unfold base64Decode
        rw [charSextet_sextetChar _ (by omega), charSextet_sextetChar _ (by omega)]
        dsimp only
        rw [if_neg (sextetChar_ne_pad _)]
        rw [charSextet_sextetChar _ (by omega)]
        dsimp only
        rw [if_pos rfl, if_pos rfl]
        have ha1 : b1 / 4 * 4 + (b1 % 4 * 16 + b2 / 16) / 16 = b1 := by omega
        have ha2 : (b1 % 4 * 16 + b2 / 16) % 16 * 16 + b2 % 16 * 4 / 4 = b2 := by
          omega
        rw [ha1, ha2]
      | b1 :: b2 :: b3 :: rest =>
        have h1 : b1 < 256 := hb2 b1 (by simp)
        have h2 : b2 < 256 := hb2 b2 (by simp)
        have h3 : b3 < 256 := hb2 b3 (by simp)
        have hrec := ih rest (by simp only [List.length_cons] at hlen; omega)
          (fun b hbm => hb2 b (by simp [hbm]))
        show base64Decode (sextetChar (b1 / 4) ::
          sextetChar (b1 % 4 * 16 + b2 / 16) ::
          sextetChar (b2 % 16 * 4 + b3 / 64) :: sextetChar (b3 % 64) ::
          base64Encode rest) = some (b1 :: b2 :: b3 :: rest)
        unfold base64Decode
        rw [charSextet_sextetChar _ (by omega), charSextet_sextetChar _ (by omega)]
        dsimp only
        rw [if_neg (sextetChar_ne_pad _)]
        rw [charSextet_sextetChar _ (by omega)]
        dsimp only
        rw [if_neg (sextetChar_ne_pad _)]
        rw [charSextet_sextetChar _ (by omega)]
        dsimp only
        rw [hrec]
        have ha1 : b1 / 4 * 4 + (b1 % 4 * 16 + b2 / 16) / 16 = b1 := by omega
        have ha2 : (b1 % 4 * 16 + b2 / 16) % 16 * 16 +
            (b2 % 16 * 4 + b3 / 64) / 4 = b2 := by omega
        have ha3 : (b2 % 16 * 4 + b3 / 64) % 4 * 64 + b3 % 64 = b3 := by omega
        rw [ha1, ha2, ha3]
        rfl
  exact key bs.length bs (Nat.le_refl _) hb

theorem base64TokenP_encode {bs : List Nat} (hne : bs ≠ []) :
    base64TokenP (base64Encode bs) = some (base64Encode bs, []) := by
  obtain ⟨body, pad, heq, hbody, hpad, hbne⟩ := base64Encode_shape bs
  have hbody_ne := hbne hne
  unfold base64TokenP
  rw [heq]
  cases hp : pad with
  | nil =>
    rw [List.append_nil]
    rw [takeWhile1_all hbody_ne hbody]
    dsimp only
    rw [List.takeWhile_nil, List.dropWhile_nil, List.append_nil]
  | cons c0 p0 =>
    have hpe : ∀ c ∈ c0 :: p0, (fun c => decide (c = '=')) c = true := by
      intro c hc
      have := hpad c (by rw [hp]; exact hc)
      rw [this]
      decide
    rw [takeWhile1_split hbody_ne hbody (fun c hc => by
      simp only [List.head?_cons, Option.some.injEq] at hc
      subst hc
      have hc0 : c0 = '=' := hpad c0 (by rw [hp]; exact List.mem_cons_self _ _)
      rw [hc0]
      decide)]
    dsimp only
    rw [takeWhile_all hpe, dropWhile_all hpe]

theorem splitOn_signer {tk : Str} (htk : ∀ c ∈ tk, c ≠ ':') :
    (str "secp256k1:" ++ tk).splitOn ':' = [str "secp256k1", tk] := by
  rw [show str "secp256k1:" ++ tk = str "secp256k1" ++ ':' :: tk from rfl]
  unfold List.splitOn
  rw [List.splitOnP_first (fun x => x == ':') (str "secp256k1") (by decide) ':'
    (by decide) tk]
  rw [List.splitOnP_eq_single]
  intro c hc
  simp only [beq_iff_eq]
  exact htk c hc

theorem roundtrip_signer {bs : List Nat} (hv : validSecp256k1 bs = true) :
    entityFromStr (Entity.Signer (.Secp256k1 bs)).render =
      some (.Signer (.Secp256k1 bs)) := by
  have hlen : bs.length = 33 := by
    unfold validSecp256k1 at hv
    simp only [Bool.and_eq_true, decide_eq_true_eq] at hv
    exact hv.1.1
  have hne : bs ≠ [] := by
    intro hx
    rw [hx] at hlen
    simp at hlen
  have hlt : ∀ b ∈ bs, b < 256 := by
    unfold validSecp256k1 at hv
    simp only [Bool.and_eq_true, List.all_eq_true, decide_eq_true_eq] at hv
    exact hv.2
  obtain ⟨body, pad, heq, hbody, hpad, hbne⟩ := base64Encode_shape bs
  have htkchars : ∀ c ∈ base64Encode bs, b64Char c = true ∨ c = '=' := by
    intro c hc
    rw [heq] at hc
    rcases List.mem_append.mp hc with hm | hm
    · exact Or.inl (hbody c hm)
    · exact Or.inr (hpad c hm)
  have hemail : emailP (str "secp256k1:" ++ base64Encode bs) = none := by
    unfold emailP
    rw [show str "secp256k1:" ++ base64Encode bs =
      str "secp256k1" ++ ':' :: base64Encode bs from rfl]
    rw [takeWhile1_split (by decide) (by decide) (fun c hc => by
      simp only [List.head?_cons, Option.some.injEq] at hc
      subst hc
      decide)]
    rfl
  have hhash : hashValueP (str "secp256k1:" ++ base64Encode bs) = none := by
    rw [show str "secp256k1:" ++ base64Encode bs =
      's' :: (str "ecp256k1:" ++ base64Encode bs) from rfl]
    exact hashValueP_cons (by decide)
  have hname : nameP (str "secp256k1:" ++ base64Encode bs) =
      some (str "secp", '2' :: (str "56k1:" ++ base64Encode bs)) := by
    unfold nameP
    rw [show str "secp256k1:" ++ base64Encode bs =
      str "secp" ++ ('2' :: (str "56k1:" ++ base64Encode bs)) from rfl]
    rw [takeWhile1_split (by decide) (by decide) (fun c hc => by
      simp only [List.head?_cons, Option.some.injEq] at hc
      subst hc
      decide)]
    dsimp only
    rw [List.takeWhile_cons_of_neg (by decide),
      List.dropWhile_cons_of_neg (by decide), List.append_nil]
  have htmpl : templateP (str "secp256k1:" ++ base64Encode bs) = none := by
    unfold templateP
    rw [hname]
    rfl
  have hasn : asnP (str "secp256k1:" ++ base64Encode bs) = none := rfl
  have hb64tok := base64TokenP_encode hne
  have hsplit : (str "secp256k1:" ++ base64Encode bs).splitOn ':' =
      [str "secp256k1", base64Encode bs] := by
    apply splitOn_signer
    intro c hc hx
    rcases htkchars c hc with h1 | h1
    · rw [hx] at h1
      exact absurd h1 (by decide)
    · rw [hx] at h1
      exact absurd h1 (by decide)
  have hpk : publicKeyFromStr (str "secp256k1:" ++ base64Encode bs) =
      some (.Secp256k1 bs) := by
    unfold publicKeyFromStr
    rw [hsplit]
    dsimp only
    rw [base64Decode_encode bs hlt]
    dsimp only
    rw [if_neg (by decide), if_pos rfl, if_pos hv]
  have hsig : signerP (str "secp256k1:" ++ base64Encode bs) =
      some ([], .Signer (.Secp256k1 bs)) := by
    unfold signerP
    rw [tagP_self_append]
    dsimp only
    rw [hb64tok]
    dsimp only
    rw [hpk]
  show entityFromStr (str "secp256k1:" ++ base64Encode bs) =
    some (.Signer (.Secp256k1 bs))
  unfold entityFromStr entityP
  simp only [hemail, hhash, htmpl, hasn, hsig]

/-- Claim C7, amended: the round trip `parse (render e) = e` holds
exactly on the well-formed fragment the grammar disambiguates — an
e-mail whose text is one full e-mail token, a hash value whose text is
one full base64 token, any `AS` number below `2^32`, any IPv4 CIDR the
`cidr` crate produces, a domain whose text is one full domain token and
does not begin like an AS number, a template whose name is one full
name token with nonempty slot lists, and a secp256k1 signer with valid
compressed key bytes; a concrete IPv6 host with no compressible zero
run also round-trips. (Ed25519/RSA signers, URLs, and compressed IPv6
texts such as `::1` do not, per the counterexample.) -/
theorem claim_C7_amended :
    (∀ s, emailP s = some (s, []) →
      entityFromStr (Entity.EMail s).render = some (.EMail s)) ∧
    (∀ tk, base64TokenP tk = some (tk, []) →
      entityFromStr (Entity.HashValue tk).render = some (.HashValue tk)) ∧
    (∀ n, n < 2 ^ 32 → entityFromStr (Entity.AS n).render = some (.AS n)) ∧
    (∀ c : Ipv4Cidr, c.wf →
      entityFromStr (Entity.IPv4 c).render = some (.IPv4 c)) ∧
    (∀ s, domainP s = some (s, []) → asnP s = none →
      entityFromStr (Entity.Domain s).render = some (.Domain s)) ∧
    (∀ t : Template, nameP t.name = some (t.name, []) →
      t.entity_types ≠ [] → (∀ alts ∈ t.entity_types, alts ≠ []) →
      entityFromStr (Entity.Template t).render = some (.Template t)) ∧
    (∀ bs, validSecp256k1 bs = true →
      entityFromStr (Entity.Signer (.Secp256k1 bs)).render =
        some (.Signer (.Secp256k1 bs))) ∧
    entityFromStr
      (Entity.IPv6 ⟨42540766411282592856904265327123268614, 128⟩).render =
      some (.IPv6 ⟨42540766411282592856904265327123268614, 128⟩) :=
  ⟨fun _ h => roundtrip_email h,
   fun _ h => roundtrip_hash h,
   fun _ h => roundtrip_as h,
   fun _ h => roundtrip_ipv4 h,
   fun _ h1 h2 => roundtrip_domain h1 h2,
   fun _ h1 h2 h3 => roundtrip_template h1 h2 h3,
   fun _ h => roundtrip_signer h,
   by decide⟩

/-- Witness for claim C7: one concrete entity per positive clause. -/
theorem claim_C7_witness :
    entityFromStr (Entity.EMail (str "user@example.com")).render =
      some (.EMail (str "user@example.com")) ∧
    entityFromStr (Entity.HashValue (str "dGVzdA==")).render =
      some (.HashValue (str "dGVzdA==")) ∧
    entityFromStr (Entity.AS 12345).render = some (.AS 12345) ∧
    entityFromStr (Entity.IPv4 ⟨3221225984, 24⟩).render =
      some (.IPv4 ⟨3221225984, 24⟩) ∧
    entityFromStr (Entity.Domain (str "example.com")).render =
      some (.Domain (str "example.com")) ∧
    entityFromStr (Entity.Template rootTemplate).render =
      some (.Template rootTemplate) ∧
    entityFromStr
      (Entity.Signer (.Secp256k1 (2 :: List.replicate 32 7))).render =
      some (.Signer (.Secp256k1 (2 :: List.replicate 32 7))) :=
  ⟨claim_C7_amended.1 _ (by decide),
   claim_C7_amended.2.1 _ (by decide),
   claim_C7_amended.2.2.1 12345 (by decide),
   claim_C7_amended.2.2.2.1 _ (by decide),
   claim_C7_amended.2.2.2.2.1 _ (by decide) (by decide),
   claim_C7_amended.2.2.2.2.2.1 rootTemplate (by decide) (by decide)
     (by decide),
   claim_C7_amended.2.2.2.2.2.2.1 _ (by decide)⟩

end RepNet
